import Mathlib

/-!
Shallow embedding of the TactiCast Viewpoint baseline recommendation core
(`tacticast_viewpoint`): frame canonicalization, pseudo-time and velocity
estimation, per-frame proximity graphs, candidate generation, deterministic
scoring, temporal smoothing and the policy orchestrator, together with
theorems settling the specification claims.

Modelling conventions:
* Python floats are modelled as exact rationals, extended with the IEEE
  special values `+inf`, `-inf`, `nan` (type `XQ`) on the paths where the
  source manipulates `float("inf")` (nearest-opponent searches and the
  open-space grid search).  Python's `float` exponent `** 0.5` is abstracted
  as an explicit square-root parameter `rt : ℚ → ℚ`; theorems about the
  algorithm hold for every `rt`, and concrete scenarios instantiate `rt`
  with a function that agrees with the exact square root on every perfect
  square the scenario produces.
* Python dicts are modelled as insertion-ordered association lists; `getKey?`
  is dict lookup (first binding wins, matching dict-update-by-cons).
* Python's `sorted(key=..., reverse=True)` (a stable descending sort) is
  modelled by the stable insertion sort `sortDesc`.
* Python's `f"..."` float formatting inside rationale strings is abstracted
  by `showQ`/`showXQ`; no claim depends on the numeric rendering.
* The open-space grid `while` loops are modelled by `gridSteps`, which
  enumerates the same points `x0, x0+dx, ...` up to the `1e-6`-padded upper
  bound; a non-positive step (on which the source would not terminate) gives
  the empty enumeration, and `q / 0 = 0` stands in for the source's
  `ZeroDivisionError` on a zero pitch length.
-/

/-- Kernel-computable rational operations.  Batteries marks `Rat.add`,
`Rat.mul`, `Rat.inv` as `@[irreducible]`, so the embedding uses these
`mkRat`-based equivalents (bridged to the ordinary field operations by the
`qadd_eq`-style lemmas below) everywhere a Python float operation occurs. -/
def qadd (a b : ℚ) : ℚ := mkRat (a.num * b.den + b.num * a.den) (a.den * b.den)

def qneg (a : ℚ) : ℚ := mkRat (-a.num) a.den

def qsub (a b : ℚ) : ℚ := qadd a (qneg b)

def qmul (a b : ℚ) : ℚ := mkRat (a.num * b.num) (a.den * b.den)

def qdiv (a b : ℚ) : ℚ :=
  mkRat (a.num * b.den * (if b.num < 0 then -1 else 1)) (a.den * b.num.natAbs)

def qblt (a b : ℚ) : Bool := Rat.blt a b

/-- Python `max(a, b)` on two floats: returns `b` exactly when `a < b`. -/
def qmax (a b : ℚ) : ℚ := if qblt a b then b else a

/-- Python `min(a, b)` on two floats: returns `b` exactly when `b < a`. -/
def qmin (a b : ℚ) : ℚ := if qblt b a then b else a

/-- Python `abs` on a float. -/
def qabs (a : ℚ) : ℚ := if qblt a 0 then qneg a else a

/-- `math.floor` on a rational (`fdiv` is floor division). -/
def qfloor (a : ℚ) : ℤ := a.num.fdiv a.den

/-- Extended rationals with the IEEE special values produced by Python
`float` arithmetic on the modelled code paths. -/
inductive XQ where
  | fin (q : ℚ)
  | pinf
  | ninf
  | nan
deriving DecidableEq

instance : Inhabited XQ := ⟨XQ.fin 0⟩

/-- IEEE strict `<` (any comparison with `nan` is false). -/
def XQ.blt : XQ → XQ → Bool
  | XQ.fin a, XQ.fin b => qblt a b
  | XQ.fin _, XQ.pinf => true
  | XQ.ninf, XQ.fin _ => true
  | XQ.ninf, XQ.pinf => true
  | _, _ => false

/-- IEEE addition on the extended rationals. -/
def XQ.add : XQ → XQ → XQ
  | XQ.fin a, XQ.fin b => XQ.fin (qadd a b)
  | XQ.fin _, XQ.pinf => XQ.pinf
  | XQ.fin _, XQ.ninf => XQ.ninf
  | XQ.fin _, XQ.nan => XQ.nan
  | XQ.pinf, XQ.fin _ => XQ.pinf
  | XQ.pinf, XQ.pinf => XQ.pinf
  | XQ.pinf, XQ.ninf => XQ.nan
  | XQ.pinf, XQ.nan => XQ.nan
  | XQ.ninf, XQ.fin _ => XQ.ninf
  | XQ.ninf, XQ.pinf => XQ.nan
  | XQ.ninf, XQ.ninf => XQ.ninf
  | XQ.ninf, XQ.nan => XQ.nan
  | XQ.nan, _ => XQ.nan

/-- IEEE multiplication by a finite scalar (`0 * inf = nan`). -/
def XQ.smul (w : ℚ) : XQ → XQ
  | XQ.fin q => XQ.fin (qmul w q)
  | XQ.pinf => if 0 < w then XQ.pinf else if w < 0 then XQ.ninf else XQ.nan
  | XQ.ninf => if 0 < w then XQ.ninf else if w < 0 then XQ.pinf else XQ.nan
  | XQ.nan => XQ.nan

def XQ.isFin : XQ → Bool
  | XQ.fin _ => true
  | _ => false

/-- The rational value of a finite extended rational (junk 0 otherwise). -/
def XQ.toQ : XQ → ℚ
  | XQ.fin q => q
  | _ => 0

/-- Python `min(a, b)`: returns `b` exactly when `b < a`. -/
def pymin (a b : XQ) : XQ := if XQ.blt b a then b else a

/-- Python `max(a, b)`: returns `b` exactly when `a < b`. -/
def pymax (a b : XQ) : XQ := if XQ.blt a b then b else a

/-- Rendering of a rational into rationale strings (abstracts Python's
float formatting; no claim depends on the exact rendering). -/
def showQ (q : ℚ) : String := toString q.num ++ "/" ++ toString q.den

def showXQ : XQ → String
  | XQ.fin q => showQ q
  | XQ.pinf => "inf"
  | XQ.ninf => "-inf"
  | XQ.nan => "nan"

/-- Dict lookup on an insertion-ordered association list. -/
def getKey? {α : Type} (k : String) : List (String × α) → Option α
  | [] => none
  | (k', v) :: rest => if k' = k then some v else getKey? k rest

abbrev Vec2 : Type := ℚ × ℚ

/-- `types.Pitch`. -/
structure Pitch where
  length : ℚ
  width : ℚ
deriving DecidableEq

/-- `types.FocusTargetType`. -/
inductive TType where
  | BALL
  | PLAYER
  | ZONE
  | GOAL
deriving DecidableEq

/-- `types.FocusTarget`. -/
structure FocusTarget where
  target_type : TType
  anchor : Vec2
  target_player_id : Option String := none
  tag : Option String := none
deriving DecidableEq

instance : Inhabited FocusTarget := ⟨⟨TType.BALL, (0, 0), none, none⟩⟩

/-- `types.CandidateEvent`. -/
structure CandidateEvent where
  name : String
  focus : FocusTarget
  features : List (String × XQ)
  meta : List (String × String)
deriving DecidableEq

/-- `types.ScoredEvent`. -/
structure ScoredEvent where
  name : String
  score : XQ
  focus : FocusTarget
  reasons : List String
  meta : List (String × String)
deriving DecidableEq

instance : Inhabited ScoredEvent := ⟨⟨"", XQ.fin 0, default, [], []⟩⟩

/-- `types.RawBall`. -/
structure RawBall where
  x : Option ℚ
  y : Option ℚ
  owner_id : Option String := none
deriving DecidableEq

/-- `types.RawFrame`. -/
structure RawFrame where
  id : String
  player_pos : List (String × Vec2)
  ball : RawBall
  note : String := ""
deriving DecidableEq

instance : Inhabited RawFrame := ⟨⟨"", [], ⟨none, none, none⟩, ""⟩⟩

/-- `types.Frame` (canonical frame). -/
structure Frame where
  frame_idx : ℕ
  players : List (String × Vec2)
  ball_pos : Vec2
  ball_owner_id : Option String := none
  note : String := ""
deriving DecidableEq

instance : Inhabited Frame := ⟨⟨0, [], (0, 0), none, ""⟩⟩

/-- `types.EdgeType`. -/
inductive EdgeType where
  | TEAM_NEAR
  | OPP_NEAR
  | BALL_LINK
deriving DecidableEq

/-- `types.GraphNode`. -/
structure GraphNode where
  player_id : String
  team : String
  role : String
  pos : Vec2
  vel : Vec2
deriving DecidableEq

instance : Inhabited GraphNode := ⟨⟨"", "A", "", (0, 0), (0, 0)⟩⟩

/-- `types.GraphEdge`. -/
structure GraphEdge where
  src : String
  dst : String
  etype : EdgeType
  features : List (String × ℚ)
deriving DecidableEq

/-- `types.FrameGraph`. -/
structure FrameGraph where
  frame_idx : ℕ
  nodes : List (String × GraphNode)
  edges : List GraphEdge
  ball_pos : Vec2
  t_rel : ℚ
deriving DecidableEq

/-- `types.PlayerFocusRecommendation`. -/
structure PlayerFocusRecommendation where
  player_id : String
  frame_idx : ℕ
  t_rel : ℚ
  primary : FocusTarget
  primary_score : XQ
  rationale : List String
  top_k : List ScoredEvent
deriving DecidableEq

instance : Inhabited PlayerFocusRecommendation :=
  ⟨⟨"", 0, 0, default, XQ.fin 0, [], []⟩⟩

/-- `config.AlgoConfig` with its documented defaults. -/
structure AlgoConfig where
  top_k : ℤ := 1
  attacking_team : String := "A"
  attack_direction : ℤ := 1
  max_player_speed : ℚ := 8
  min_dt : ℚ := mkRat 1 5
  teammate_radius : ℚ := 12
  opponent_radius : ℚ := 10
  enable_ball_focus : Bool := true
  enable_pass_targets : Bool := true
  enable_marking_threats : Bool := true
  enable_space_targets : Bool := true
  enable_goal_focus : Bool := true
  space_grid_dx : ℚ := 6
  space_grid_dy : ℚ := 6
  min_space_clearance : ℚ := 4
  w_ball_distance : ℚ := mkRat (-1) 1
  w_ball_motion : ℚ := mkRat 3 2
  w_pass_likelihood : ℚ := 3
  w_opponent_pressure : ℚ := 2
  w_teammate_support : ℚ := mkRat 4 5
  w_space_value : ℚ := mkRat 6 5
  w_goal_proximity : ℚ := mkRat 5 2
  w_role_prior : ℚ := 1
  switch_penalty : ℚ := mkRat 3 2
  persistence_bonus : ℚ := mkRat 4 5
  clamp_scores : Bool := true
  score_min : ℚ := mkRat (-10) 1
  score_max : ℚ := 10
deriving DecidableEq

/-- `geometry.dist`: Euclidean distance, with `rt` standing for `** 0.5`. -/
def qdist (rt : ℚ → ℚ) (a b : Vec2) : ℚ :=
  rt (qadd (qmul (qsub a.1 b.1) (qsub a.1 b.1)) (qmul (qsub a.2 b.2) (qsub a.2 b.2)))

/-- `geometry.norm`. -/
def vnorm (rt : ℚ → ℚ) (v : Vec2) : ℚ := rt (qadd (qmul v.1 v.1) (qmul v.2 v.2))

/-- `geometry.sub`. -/
def vsub (a b : Vec2) : Vec2 := (qsub a.1 b.1, qsub a.2 b.2)

/-- `geometry.dot`. -/
def vdot (a b : Vec2) : ℚ := qadd (qmul a.1 b.1) (qmul a.2 b.2)

/-- `geometry.unit`. -/
def vunit (rt : ℚ → ℚ) (v : Vec2) : Vec2 :=
  let n := vnorm rt v
  if qblt n (mkRat 1 1000000) then (0, 0) else (qdiv v.1 n, qdiv v.2 n)

/-- `geometry.attacking_goal_center`. -/
def attacking_goal_center (pitch : Pitch) (attack_direction : ℤ) : Vec2 :=
  (if attack_direction > 0 then pitch.length else 0, qmul pitch.width (mkRat 1 2))

/-- `geometry.is_ahead`. -/
def is_ahead (a b : Vec2) (attack_direction : ℤ) : Bool :=
  qblt 0 (qmul (qsub a.1 b.1) (mkRat attack_direction 1))

/-- `geometry.in_forward_cone`. -/
def in_forward_cone (rt : ℚ → ℚ) (origin target : Vec2) (attack_direction : ℤ)
    (cos_threshold : ℚ) : Bool :=
  let forward : Vec2 := (mkRat attack_direction 1, 0)
  let v_hat := vunit rt (vsub target origin)
  !qblt (vdot v_hat forward) cos_threshold

/-- The structured content of the `ValueError`s raised by
`canonicalize_frames` (each identifies the offending player and/or frame). -/
inductive CanonErr where
  | noFrames
  | playerMissing (pid : String) (idx : ℕ)
  | ballMissing (idx : ℕ)
deriving DecidableEq

instance {ε α : Type} [DecidableEq ε] [DecidableEq α] : DecidableEq (Except ε α) :=
  fun x y =>
  match x, y with
  | Except.ok a, Except.ok b =>
    if h : a = b then isTrue (by rw [h])
    else isFalse (by intro hc; cases hc; exact h rfl)
  | Except.error a, Except.error b =>
    if h : a = b then isTrue (by rw [h])
    else isFalse (by intro hc; cases hc; exact h rfl)
  | Except.ok _, Except.error _ => isFalse (by intro hc; cases hc)
  | Except.error _, Except.ok _ => isFalse (by intro hc; cases hc)

/-- The per-frame player loop of `canonicalize_frames`: resolve every id of
`valid` from the raw positions, forward-filling from `last` (the running
last-known-position dict, updated by consing) and failing when neither is
available.  Returns the frame's player dict and the updated `last`. -/
def fillPlayers (rfpos : List (String × Vec2)) (idx : ℕ) :
    List String → List (String × Vec2) →
    Except CanonErr (List (String × Vec2) × List (String × Vec2))
  | [], last => Except.ok ([], last)
  | pid :: rest, last =>
    match getKey? pid rfpos with
    | some pos =>
      match fillPlayers rfpos idx rest ((pid, pos) :: last) with
      | Except.ok (ps, last') => Except.ok ((pid, pos) :: ps, last')
      | Except.error e => Except.error e
    | none =>
      match getKey? pid last with
      | some pos =>
        match fillPlayers rfpos idx rest last with
        | Except.ok (ps, last') => Except.ok ((pid, pos) :: ps, last')
        | Except.error e => Except.error e
      | none => Except.error (CanonErr.playerMissing pid idx)

/-- The ball step of `canonicalize_frames`: adopt the frame's ball fix when
both coordinates are present, otherwise carry the last known fix forward,
failing when there is none. -/
def resolveBall (rf : RawFrame) (lastBall : Option (Vec2 × Option String))
    (idx : ℕ) : Except CanonErr (Vec2 × Option String) :=
  match rf.ball.x, rf.ball.y with
  | some bx, some yb => Except.ok ((bx, yb), rf.ball.owner_id)
  | _, _ =>
    match lastBall with
    | some b => Except.ok b
    | none => Except.error (CanonErr.ballMissing idx)

/-- The main loop of `canonicalize_frames` over the raw frames, carrying the
last-known player positions and the last-known ball fix. -/
def canonGo (valid : List String) :
    List RawFrame → ℕ → List (String × Vec2) → Option (Vec2 × Option String) →
    Except CanonErr (List Frame)
  | [], _, _, _ => Except.ok []
  | rf :: rest, idx, lastPos, lastBall =>
    match fillPlayers rf.player_pos idx valid lastPos with
    | Except.error e => Except.error e
    | Except.ok (players, lastPos') =>
      match resolveBall rf lastBall idx with
      | Except.error e => Except.error e
      | Except.ok b =>
        match canonGo valid rest (idx + 1) lastPos' (some b) with
        | Except.error e => Except.error e
        | Except.ok fs =>
          Except.ok ({ frame_idx := idx, players := players, ball_pos := b.1,
                       ball_owner_id := b.2, note := rf.note } :: fs)

/-- `canonicalize.canonicalize_frames`: the player set `P` is the ordered key
set of raw frame 0; every frame is completed to exactly `P` by forward fill;
the ball position is forward-filled.  Errors are fail-fast. -/
def canonicalize_frames (raw_frames : List RawFrame) :
    Except CanonErr (List Frame × List String) :=
  match raw_frames with
  | [] => Except.error CanonErr.noFrames
  | r0 :: _ =>
    let valid_player_ids := r0.player_pos.map Prod.fst
    match canonGo valid_player_ids raw_frames 0 [] none with
    | Except.error e => Except.error e
    | Except.ok frames => Except.ok (frames, valid_player_ids)

/-- The `dmax` computation of `timebase.infer_pseudotime`: maximum Euclidean
displacement of any player between two consecutive frames. -/
def dmaxOf (rt : ℚ → ℚ) (prev cur : Frame) : ℚ :=
  cur.players.foldl
    (fun dmax pv =>
      let p0 := (getKey? pv.1 prev.players).getD (0, 0)
      let d := rt (qadd (qmul (qsub pv.2.1 p0.1) (qsub pv.2.1 p0.1))
                    (qmul (qsub pv.2.2 p0.2) (qsub pv.2.2 p0.2)))
      if qblt dmax d then d else dmax) 0

/-- The per-step `dt` of `timebase.infer_pseudotime`. -/
def dtStep (rt : ℚ → ℚ) (cfg : AlgoConfig) (prev cur : Frame) : ℚ :=
  qmax cfg.min_dt (qdiv (dmaxOf rt prev cur) (qmax cfg.max_player_speed (mkRat 1 1000000)))

/-- The `dt` list of `timebase.infer_pseudotime` (`dt[0] = 0`). -/
def dtList (rt : ℚ → ℚ) (cfg : AlgoConfig) : Frame → List Frame → List ℚ
  | _, [] => []
  | prev, cur :: rest => dtStep rt cfg prev cur :: dtList rt cfg cur rest

/-- Running sums turning `dt` into `t_rel`. -/
def cumsum : ℚ → List ℚ → List ℚ
  | _, [] => []
  | acc, d :: ds => qadd acc d :: cumsum (qadd acc d) ds

/-- `timebase.infer_pseudotime` (the source raises on an empty frame list;
that case is unreachable through the pipeline and modelled as `([], [])`). -/
def infer_pseudotime (rt : ℚ → ℚ) (frames : List Frame) (cfg : AlgoConfig) :
    List ℚ × List ℚ :=
  match frames with
  | [] => ([], [])
  | f0 :: rest =>
    let dt := (0 : ℚ) :: dtList rt cfg f0 rest
    (dt, cumsum 0 dt)

/-- The per-frame velocity dict of `timebase.compute_velocities` for `i > 0`. -/
def velStep (prev cur : Frame) (dt_i : ℚ) : List (String × Vec2) :=
  cur.players.map (fun pv =>
    let p0 := (getKey? pv.1 prev.players).getD (0, 0)
    let denom := qmax dt_i (mkRat 1 1000000)
    (pv.1, (qdiv (qsub pv.2.1 p0.1) denom, qdiv (qsub pv.2.2 p0.2) denom)))

def velGo : Frame → List Frame → List ℚ → List (List (String × Vec2))
  | _, [], _ => []
  | _, _, [] => []
  | prev, cur :: rest, d :: ds => velStep prev cur d :: velGo cur rest ds

/-- `timebase.compute_velocities`: velocities keyed by frame position
(`v[0]` is zero for every player). -/
def compute_velocities (frames : List Frame) (dt : List ℚ) :
    List (List (String × Vec2)) :=
  match frames, dt with
  | [], _ => []
  | f0 :: rest, _ :: ds =>
    (f0.players.map (fun pv => (pv.1, ((0 : ℚ), (0 : ℚ))))) :: velGo f0 rest ds
  | _ :: _, [] => []

/-- Per-player summary features (`graph.summarize_pressure_support` entry). -/
structure Summary where
  pressure_n : ℚ
  min_opp_d : XQ
  support_n : ℚ
  min_team_d : XQ
  ball_d : ℚ
deriving DecidableEq

/-- The typed proximity edges of one frame (`graph.build_frame_graphs`):
exhaustive ordered pairs of distinct player slots, plus one `BALL_LINK`
self-edge per player. -/
def frameEdges (rt : ℚ → ℚ) (fr : Frame) (player_team : List (String × String))
    (cfg : AlgoConfig) : List GraphEdge :=
  (fr.players.enum.flatMap (fun ia =>
    fr.players.enum.flatMap (fun ib =>
      if ia.1 = ib.1 then []
      else
        let d := qdist rt ia.2.2 ib.2.2
        let ta := (getKey? ia.2.1 player_team).getD "A"
        let tb := (getKey? ib.2.1 player_team).getD "A"
        if ta = tb then
          if !qblt cfg.teammate_radius d then
            [{ src := ia.2.1, dst := ib.2.1, etype := EdgeType.TEAM_NEAR,
               features := [("d", d)] }]
          else []
        else
          if !qblt cfg.opponent_radius d then
            [{ src := ia.2.1, dst := ib.2.1, etype := EdgeType.OPP_NEAR,
               features := [("d", d)] }]
          else [])))
  ++ fr.players.map (fun pv =>
    { src := pv.1, dst := pv.1, etype := EdgeType.BALL_LINK,
      features := [("ball_d", qdist rt pv.2 fr.ball_pos),
                   ("ball_x", fr.ball_pos.1), ("ball_y", fr.ball_pos.2)] })

/-- `graph.build_frame_graphs`: per-frame graphs aligned with the frames,
their pseudo-times and the per-frame velocity dicts. -/
def build_frame_graphs (rt : ℚ → ℚ) (frames : List Frame) (t_rel : List ℚ)
    (v_by_frame : List (List (String × Vec2)))
    (player_team player_role : List (String × String)) (cfg : AlgoConfig) :
    List FrameGraph :=
  (frames.zip (t_rel.zip v_by_frame)).map (fun fz =>
    let fr := fz.1
    let nodes := fr.players.map (fun pv =>
      (pv.1, { player_id := pv.1,
               team := (getKey? pv.1 player_team).getD "A",
               role := (getKey? pv.1 player_role).getD "",
               pos := pv.2,
               vel := (getKey? pv.1 fz.2.2).getD (0, 0) : GraphNode }))
    { frame_idx := fr.frame_idx, nodes := nodes,
      edges := frameEdges rt fr player_team cfg,
      ball_pos := fr.ball_pos, t_rel := fz.2.1 })

/-- `graph.summarize_pressure_support`, as the per-player projection of the
summary dict (counts start at 0, minima at `+inf`, `ball_d` pre-seeded from
direct computation, then one pass over the edges). -/
def summarize_pressure_support (rt : ℚ → ℚ) (g : FrameGraph) (_cfg : AlgoConfig) :
    String → Summary := fun pid =>
  let init : Summary :=
    { pressure_n := 0, min_opp_d := XQ.pinf, support_n := 0, min_team_d := XQ.pinf,
      ball_d := qdist rt ((getKey? pid g.nodes).getD default).pos g.ball_pos }
  g.edges.foldl
    (fun s e =>
      if e.src = pid then
        match e.etype with
        | EdgeType.OPP_NEAR =>
          let d := (getKey? "d" e.features).getD 0
          { s with pressure_n := qadd s.pressure_n 1,
                   min_opp_d := if XQ.blt (XQ.fin d) s.min_opp_d then XQ.fin d
                                else s.min_opp_d }
        | EdgeType.TEAM_NEAR =>
          let d := (getKey? "d" e.features).getD 0
          { s with support_n := qadd s.support_n 1,
                   min_team_d := if XQ.blt (XQ.fin d) s.min_team_d then XQ.fin d
                                 else s.min_team_d }
        | EdgeType.BALL_LINK =>
          { s with ball_d := (getKey? "ball_d" e.features).getD 0 }
      else s)
    init

/-- `candidates._nearest_opponent` (first minimum wins on ties). -/
def nearest_opponent (rt : ℚ → ℚ) (g : FrameGraph) (player_id : String)
    (player_team : List (String × String)) : Option String × XQ :=
  let team := (getKey? player_id player_team).getD "A"
  let pos := ((getKey? player_id g.nodes).getD default).pos
  g.nodes.foldl
    (fun best onode =>
      if onode.1 = player_id then best
      else if (getKey? onode.1 player_team).getD "A" = team then best
      else
        let d := qdist rt pos onode.2.pos
        if XQ.blt (XQ.fin d) best.2 then (some onode.1, XQ.fin d) else best)
    (none, XQ.pinf)

/-- `candidates._best_support_teammate`. -/
def best_support_teammate (rt : ℚ → ℚ) (g : FrameGraph) (player_id : String)
    (player_team : List (String × String)) (cfg : AlgoConfig) :
    Option String × ℚ :=
  let team := (getKey? player_id player_team).getD "A"
  let pos := ((getKey? player_id g.nodes).getD default).pos
  g.nodes.foldl
    (fun best onode =>
      if onode.1 = player_id then best
      else if (getKey? onode.1 player_team).getD "A" ≠ team then best
      else
        let d := qdist rt pos onode.2.pos
        let ahead : ℚ := if is_ahead onode.2.pos pos cfg.attack_direction then 1 else 0
        let cone : ℚ := if in_forward_cone rt pos onode.2.pos cfg.attack_direction (mkRat 3 10)
                        then 1 else 0
        let score := qsub (qadd (qmul 2 ahead) (qmul 1 cone)) (qmul (mkRat 3 20) d)
        if qblt best.2 score then (some onode.1, score) else best)
    (none, mkRat (-1000000000) 1)

/-- The grid coordinates enumerated by one of the `while` loops of
`candidates._best_open_space_anchor`: `lo, lo+step, ...` while the value is
at most `hi + 1e-6` (empty for a non-positive step, on which the source
loop would not terminate). -/
def gridSteps (lo hi step : ℚ) : List ℚ :=
  if qblt 0 step then
    if !qblt (qadd hi (mkRat 1 1000000)) lo then
      (List.range ((qfloor (qdiv (qsub (qadd hi (mkRat 1 1000000)) lo) step)).toNat + 1)).map
        (fun k => qadd lo (qmul (mkRat k 1) step))
    else []
  else []

/-- `candidates._best_open_space_anchor`: bounded forward grid search with a
hard clearance rejection; with no opponents the clearance is `+inf` and the
first grid point wins with value `+inf`. -/
def best_open_space_anchor (rt : ℚ → ℚ) (g : FrameGraph) (pitch : Pitch)
    (player_id : String) (player_team : List (String × String))
    (cfg : AlgoConfig) : Option Vec2 × XQ :=
  let pos := ((getKey? player_id g.nodes).getD default).pos
  let x0x1 : ℚ × ℚ :=
    if cfg.attack_direction > 0 then (pos.1, qmin pitch.length (qadd pos.1 24))
    else (qmax 0 (qsub pos.1 24), pos.1)
  let y0 := qmax 0 (qsub pos.2 18)
  let y1 := qmin pitch.width (qadd pos.2 18)
  let xs := gridSteps x0x1.1 x0x1.2 cfg.space_grid_dx
  let ys := gridSteps y0 y1 cfg.space_grid_dy
  xs.foldl
    (fun b x =>
      ys.foldl
        (fun best y =>
          let anchor : Vec2 := (x, y)
          let min_opp :=
            g.nodes.foldl
              (fun m onode =>
                if onode.1 = player_id then m
                else if (getKey? onode.1 player_team).getD "A"
                        = (getKey? player_id player_team).getD "A" then m
                else
                  let d := qdist rt anchor onode.2.pos
                  if XQ.blt (XQ.fin d) m then XQ.fin d else m)
              XQ.pinf
          if XQ.blt min_opp (XQ.fin cfg.min_space_clearance) then best
          else
            let forward_progress :=
              if cfg.attack_direction > 0 then qdiv anchor.1 pitch.length
              else qsub 1 (qdiv anchor.1 pitch.length)
            let d_self := qdist rt anchor pos
            let value :=
              ((XQ.smul (mkRat 3 2) min_opp).add (XQ.fin (qmul 8 forward_progress))).add
                (XQ.fin (qneg (qmul (mkRat 1 4) d_self)))
            if XQ.blt best.2 value then (some anchor, value) else best)
        b)
    (none, XQ.fin (mkRat (-1000000000) 1))

/-- `candidates.generate_candidates_for_player`: at most one candidate of
each of the five kinds, each gated by its configuration toggle. -/
def generate_candidates_for_player (rt : ℚ → ℚ) (g : FrameGraph) (pitch : Pitch)
    (player_id : String) (player_team : List (String × String))
    (cfg : AlgoConfig) (summaries : String → Summary) : List CandidateEvent :=
  match getKey? player_id g.nodes with
  | none => []
  | some node =>
    let pos := node.pos
    (if cfg.enable_ball_focus then
      [{ name := "BALL_NEARBY",
         focus := { target_type := TType.BALL, anchor := g.ball_pos,
                    target_player_id := none, tag := some "ball" },
         features := [("ball_d", XQ.fin (summaries player_id).ball_d)],
         meta := [] }]
     else [])
    ++
    (if cfg.enable_marking_threats then
      match nearest_opponent rt g player_id player_team with
      | (some opp_id, opp_d) =>
        [{ name := "OPP_PRESSURE",
           focus := { target_type := TType.PLAYER,
                      anchor := ((getKey? opp_id g.nodes).getD default).pos,
                      target_player_id := some opp_id, tag := some "press" },
           features := [("opp_d", opp_d),
                        ("pressure_n", XQ.fin (summaries player_id).pressure_n)],
           meta := [("opponent_id", opp_id)] }]
      | (none, _) => []
     else [])
    ++
    (if cfg.enable_pass_targets then
      match best_support_teammate rt g player_id player_team cfg with
      | (some mate_id, mate_score) =>
        [{ name := "TEAM_SUPPORT",
           focus := { target_type := TType.PLAYER,
                      anchor := ((getKey? mate_id g.nodes).getD default).pos,
                      target_player_id := some mate_id, tag := some "support" },
           features := [("mate_score", XQ.fin mate_score),
                        ("support_n", XQ.fin (summaries player_id).support_n)],
           meta := [("teammate_id", mate_id)] }]
      | (none, _) => []
     else [])
    ++
    (if cfg.enable_space_targets then
      match best_open_space_anchor rt g pitch player_id player_team cfg with
      | (some space_anchor, space_value) =>
        [{ name := "OPEN_SPACE",
           focus := { target_type := TType.ZONE, anchor := space_anchor,
                      target_player_id := none, tag := some "space" },
           features := [("space_value", space_value)],
           meta := [] }]
      | (none, _) => []
     else [])
    ++
    (if cfg.enable_goal_focus then
      let goal := attacking_goal_center pitch cfg.attack_direction
      [{ name := "GOAL",
         focus := { target_type := TType.GOAL, anchor := goal,
                    target_player_id := none, tag := some "goal" },
         features := [("goal_d", XQ.fin (qdist rt pos goal))],
         meta := [] }]
     else [])

/-- Kernel-computable models of Python `str.upper` and `str.strip`. -/
def upStr (s : String) : String := String.mk (s.data.map Char.toUpper)

def trimStr (s : String) : String :=
  String.mk (((s.data.dropWhile Char.isWhitespace).reverse.dropWhile
    Char.isWhitespace).reverse)

/-- `scoring._role_prior`. -/
def role_prior (role candidate_name : String) : ℚ :=
  let r := trimStr (upStr role)
  if candidate_name = "OPP_PRESSURE" then
    if r = "GK" ∨ r = "CB" ∨ r = "LB" ∨ r = "RB" then mkRat 4 5
    else if r = "ST" ∨ r = "LW" ∨ r = "RW" then mkRat 1 5
    else 0
  else if candidate_name = "TEAM_SUPPORT" then
    if r = "CM" ∨ r = "CDM" then mkRat 7 10 else 0
  else if candidate_name = "OPEN_SPACE" then
    if r = "ST" ∨ r = "LW" ∨ r = "RW" ∨ r = "CM" then mkRat 1 2 else 0
  else if candidate_name = "GOAL" then
    if r = "ST" ∨ r = "LW" ∨ r = "RW" then mkRat 4 5 else 0
  else 0

/-- `scoring._score_one`: accumulate named score terms and their rationale
strings for one candidate. -/
def score_one (rt : ℚ → ℚ) (g : FrameGraph) (player_id : String) (pos : Vec2)
    (c : CandidateEvent) (summaries : String → Summary) (cfg : AlgoConfig)
    (role : String) : XQ × List String :=
  let ball_d := (summaries player_id).ball_d
  let pressure_n := (summaries player_id).pressure_n
  let support_n := (summaries player_id).support_n
  let rp := role_prior role c.name
  let s0 : XQ := XQ.fin 0
  let sr1 : XQ × List String :=
    if rp ≠ 0 then
      (s0.add (XQ.fin (qmul cfg.w_role_prior rp)),
       ["role_prior(" ++ role ++ ")=" ++ showQ rp])
    else (s0, [])
  if c.name = "BALL_NEARBY" then
    let s1 := sr1.1.add (XQ.fin (qmul cfg.w_ball_distance ball_d))
    let r1 := sr1.2 ++ ["ball_d=" ++ showQ ball_d]
    if in_forward_cone rt pos g.ball_pos cfg.attack_direction 0 then
      (s1.add (XQ.fin (qmul cfg.w_ball_motion (mkRat 3 5))), r1 ++ ["ball_in_forward_half"])
    else (s1, r1)
  else if c.name = "OPP_PRESSURE" then
    let opp_d := (getKey? "opp_d" c.features).getD (summaries player_id).min_opp_d
    let sr2 : XQ × List String :=
      if XQ.blt opp_d XQ.pinf then
        (sr1.1.add (XQ.fin (qmul cfg.w_opponent_pressure
           (qdiv 1 (qmax opp_d.toQ (mkRat 1 2))))),
         sr1.2 ++ ["opp_d=" ++ showXQ opp_d])
      else sr1
    (sr2.1.add (XQ.fin (qmul (qmul cfg.w_opponent_pressure (mkRat 1 5)) pressure_n)),
     sr2.2 ++ ["pressure_n=" ++ showQ pressure_n])
  else if c.name = "TEAM_SUPPORT" then
    let mate_score := ((getKey? "mate_score" c.features).getD (XQ.fin 0)).toQ
    let s1 := (sr1.1.add (XQ.fin (qmul cfg.w_teammate_support mate_score))).add
      (XQ.fin (qmul (qmul cfg.w_teammate_support (mkRat 1 10)) support_n))
    let r1 := sr1.2 ++ ["mate_score=" ++ showQ mate_score]
      ++ ["support_n=" ++ showQ support_n]
    if qblt ball_d 18 then
      (s1.add (XQ.fin (qmul cfg.w_pass_likelihood (qsub 1 (qdiv ball_d 18)))),
       r1 ++ ["ball_close_boost_for_pass"])
    else (s1, r1)
  else if c.name = "OPEN_SPACE" then
    let space_value := (getKey? "space_value" c.features).getD (XQ.fin 0)
    let s1 := sr1.1.add (XQ.smul cfg.w_space_value space_value)
    let r1 := sr1.2 ++ ["space_value=" ++ showXQ space_value]
    if is_ahead c.focus.anchor pos cfg.attack_direction then
      (s1.add (XQ.fin (qmul cfg.w_space_value (mkRat 1 2))), r1 ++ ["space_ahead_bonus"])
    else (s1, r1)
  else if c.name = "GOAL" then
    let goal_d := ((getKey? "goal_d" c.features).getD
      (XQ.fin (qdist rt pos c.focus.anchor))).toQ
    let s1 := sr1.1.add (XQ.fin (qmul cfg.w_goal_proximity (qdiv 1 (qmax goal_d 1))))
    let r1 := sr1.2 ++ ["goal_d=" ++ showQ goal_d]
    if qblt ball_d 25 then
      (s1.add (XQ.fin (qmul cfg.w_goal_proximity (mkRat 2 5))), r1 ++ ["ball_close_goal_bonus"])
    else (s1, r1)
  else
    (sr1.1, sr1.2 ++ ["unknown_candidate"])

/-- One step of the stable descending insertion sort: `e` is placed before
the first element it is not strictly below (so equal scores keep their
original relative order, as Python's stable `sorted` does). -/
def insertDesc (e : ScoredEvent) : List ScoredEvent → List ScoredEvent
  | [] => [e]
  | x :: xs => if XQ.blt e.score x.score then x :: insertDesc e xs else e :: x :: xs

/-- Python's `list.sort(key=lambda e: e.score, reverse=True)`: the stable
descending sort by score. -/
def sortDesc : List ScoredEvent → List ScoredEvent
  | [] => []
  | e :: rest => insertDesc e (sortDesc rest)

/-- `scoring.score_candidates`: score, optionally clamp, and rank. -/
def score_candidates (rt : ℚ → ℚ) (g : FrameGraph) (player_id : String)
    (candidates : List CandidateEvent) (summaries : String → Summary)
    (cfg : AlgoConfig) (role : String) : List ScoredEvent :=
  match getKey? player_id g.nodes with
  | none => []
  | some node =>
    let pos := node.pos
    sortDesc (candidates.map (fun c =>
      let sr := score_one rt g player_id pos c summaries cfg role
      let s := if cfg.clamp_scores then
                 pymax (XQ.fin cfg.score_min) (pymin (XQ.fin cfg.score_max) sr.1)
               else sr.1
      { name := c.name, score := s, focus := c.focus, reasons := sr.2,
        meta := c.meta }))

/-- `smoothing._same_focus`. -/
def same_focus (a b : ScoredEvent) : Bool :=
  decide (a.focus.target_type = b.focus.target_type)
  && decide (a.focus.target_player_id = b.focus.target_player_id)
  && !qblt (mkRat 1 1000) (qabs (qsub a.focus.anchor.1 b.focus.anchor.1))
  && !qblt (mkRat 1 1000) (qabs (qsub a.focus.anchor.2 b.focus.anchor.2))

/-- The per-event adjustment of `smoothing.apply_temporal_smoothing` against
the carried previous primary `p`. -/
def adjustEv (cfg : AlgoConfig) (p ev : ScoredEvent) : ScoredEvent :=
  let delta := if same_focus ev p then cfg.persistence_bonus else qneg cfg.switch_penalty
  { name := ev.name, score := ev.score.add (XQ.fin delta), focus := ev.focus,
    reasons := ev.reasons ++ (if qblt 0 delta then ["persist_bonus"] else ["switch_penalty"]),
    meta := ev.meta }

/-- One frame of the smoother: the output event list. -/
def stepOut (cfg : AlgoConfig) (prev : Option ScoredEvent)
    (events : List ScoredEvent) : List ScoredEvent :=
  match events with
  | [] => []
  | _ :: _ =>
    match prev with
    | none => events
    | some p => sortDesc (events.map (adjustEv cfg p))

/-- One frame of the smoother: the carried previous primary afterwards
(empty frames leave it untouched). -/
def stepCarry (cfg : AlgoConfig) (prev : Option ScoredEvent)
    (events : List ScoredEvent) : Option ScoredEvent :=
  match events with
  | [] => prev
  | _ :: _ => some (stepOut cfg prev events).headI

/-- The frame loop of `smoothing.apply_temporal_smoothing` (frames are
visited in index order, i.e. list order). -/
def smoothGo (cfg : AlgoConfig) :
    Option ScoredEvent → List (List ScoredEvent) → List (List ScoredEvent)
  | _, [] => []
  | prev, events :: rest =>
    stepOut cfg prev events :: smoothGo cfg (stepCarry cfg prev events) rest

/-- The carried previous primary after a prefix of frames. -/
def smoothCarry (cfg : AlgoConfig) :
    Option ScoredEvent → List (List ScoredEvent) → Option ScoredEvent
  | prev, [] => prev
  | prev, events :: rest => smoothCarry cfg (stepCarry cfg prev events) rest

/-- `smoothing.apply_temporal_smoothing` for one player, with the per-frame
event lists in frame-index order. -/
def apply_temporal_smoothing (cfg : AlgoConfig)
    (scored_by_frame : List (List ScoredEvent)) : List (List ScoredEvent) :=
  smoothGo cfg none scored_by_frame

/-- `policy._fallback_focus`. -/
def fallback_focus (fr : Frame) : FocusTarget :=
  { target_type := TType.BALL, anchor := fr.ball_pos, target_player_id := none,
    tag := some "ball" }

/-- The frame-0 player list the policy iterates over
(`list(frames[0].players.keys())`). -/
def headPlayers : List Frame → List String
  | [] => []
  | f :: _ => f.players.map Prod.fst

/-- The scored event lists of one player across frames: steps 4.3 to 4.5 of
`policy.run_baseline_policy` (graphs are shared across players; candidate
generation and scoring are per player per frame). -/
def scored_for (rt : ℚ → ℚ) (frames : List Frame) (pitch : Pitch)
    (player_team player_role : List (String × String)) (cfg : AlgoConfig)
    (pid : String) : List (List ScoredEvent) :=
  let dtr := infer_pseudotime rt frames cfg
  let v := compute_velocities frames dtr.1
  let graphs := build_frame_graphs rt frames dtr.2 v player_team player_role cfg
  graphs.map (fun g =>
    let summaries := summarize_pressure_support rt g cfg
    let cands := generate_candidates_for_player rt g pitch pid player_team cfg summaries
    score_candidates rt g pid cands summaries cfg ((getKey? pid player_role).getD ""))

/-- The temporally smoothed event lists of one player. -/
def smoothed_for (rt : ℚ → ℚ) (frames : List Frame) (pitch : Pitch)
    (player_team player_role : List (String × String)) (cfg : AlgoConfig)
    (pid : String) : List (List ScoredEvent) :=
  apply_temporal_smoothing cfg (scored_for rt frames pitch player_team player_role cfg pid)

/-- The final assembly loop of `policy.run_baseline_policy` for one player:
one recommendation per frame, with the deterministic ball fallback when the
ranked list is empty. -/
def recs_for (rt : ℚ → ℚ) (frames : List Frame) (pitch : Pitch)
    (player_team player_role : List (String × String)) (cfg : AlgoConfig)
    (pid : String) : List PlayerFocusRecommendation :=
  let t_rel := (infer_pseudotime rt frames cfg).2
  let ranked_by := smoothed_for rt frames pitch player_team player_role cfg pid
  (List.range frames.length).map (fun i =>
    let ranked := ranked_by.getD i []
    match ranked with
    | [] =>
      { player_id := pid, frame_idx := i, t_rel := t_rel.getD i 0,
        primary := fallback_focus (frames.getD i default),
        primary_score := XQ.fin 0, rationale := ["fallback_ball"], top_k := [] }
    | primary :: _ =>
      let topk := ranked.take (if 1 < cfg.top_k then cfg.top_k else 1).toNat
      { player_id := pid, frame_idx := i, t_rel := t_rel.getD i 0,
        primary := (match topk with
                    | [] => fallback_focus (frames.getD i default)
                    | t0 :: _ => t0.focus),
        primary_score := primary.score, rationale := primary.reasons,
        top_k := topk })

/-- `policy.run_baseline_policy`: the full deterministic baseline, as the
insertion-ordered output dict keyed by the frame-0 player set. -/
def run_baseline_policy (rt : ℚ → ℚ) (frames : List Frame) (pitch : Pitch)
    (player_team player_role : List (String × String)) (cfg : AlgoConfig) :
    List (String × List PlayerFocusRecommendation) :=
  (headPlayers frames).map (fun pid =>
    (pid, recs_for rt frames pitch player_team player_role cfg pid))

/-! Bridge lemmas relating the kernel-computable operations to the ordinary
field and order structure of `ℚ`. -/

theorem qadd_eq (a b : ℚ) : qadd a b = a + b := (Rat.add_def' a b).symm

theorem qneg_eq (a : ℚ) : qneg a = -a := by
  rw [qneg, ← Rat.neg_mkRat, Rat.mkRat_self]

theorem qsub_eq (a b : ℚ) : qsub a b = a - b := by
  rw [qsub, qadd_eq, qneg_eq, ← sub_eq_add_neg]

theorem qblt_iff {a b : ℚ} : qblt a b = true ↔ a < b := Iff.rfl

theorem qblt_eq_false_iff {a b : ℚ} : qblt a b = false ↔ b ≤ a := by
  rw [qblt, show (b ≤ a) = (Rat.blt a b = false) from rfl]

theorem XQ.add_fin (a b : ℚ) : XQ.add (XQ.fin a) (XQ.fin b) = XQ.fin (a + b) := by
  rw [XQ.add, qadd_eq]

theorem XQ.blt_fin (a b : ℚ) : XQ.blt (XQ.fin a) (XQ.fin b) = qblt a b := rfl

theorem XQ.isFin_iff {x : XQ} : x.isFin = true ↔ ∃ q, x = XQ.fin q := by
  cases x <;> simp [XQ.isFin]

theorem XQ.toQ_fin (q : ℚ) : (XQ.fin q).toQ = q := rfl

/-- With clamping enabled the clamp of any extended score is a rational in
`[score_min, score_max]` (given `score_min ≤ score_max`). -/
theorem clamp_mem_range (smin smax : ℚ) (h : smin ≤ smax) (s : XQ) :
    ∃ q, pymax (XQ.fin smin) (pymin (XQ.fin smax) s) = XQ.fin q
      ∧ smin ≤ q ∧ q ≤ smax := by
  cases s with
  | fin a =>
    rw [pymin, XQ.blt_fin]
    by_cases hlt : a < smax
    · rw [if_pos (qblt_iff.mpr hlt), pymax, XQ.blt_fin]
      by_cases hlt2 : smin < a
      · rw [if_pos (qblt_iff.mpr hlt2)]
        exact ⟨a, rfl, le_of_lt hlt2, le_of_lt hlt⟩
      · rw [if_neg (fun hc => hlt2 (qblt_iff.mp (by simpa using hc)))]
        exact ⟨smin, rfl, le_refl _, h⟩
    · rw [if_neg (fun hc => hlt (qblt_iff.mp (by simpa using hc))), pymax, XQ.blt_fin]
      by_cases hlt2 : smin < smax
      · rw [if_pos (qblt_iff.mpr hlt2)]
        exact ⟨smax, rfl, h, le_refl _⟩
      · rw [if_neg (fun hc => hlt2 (qblt_iff.mp (by simpa using hc)))]
        exact ⟨smin, rfl, le_refl _, h⟩
  | pinf =>
    rw [pymin, show XQ.blt XQ.pinf (XQ.fin smax) = false from rfl, if_neg (by simp),
      pymax, XQ.blt_fin]
    by_cases hlt2 : smin < smax
    · rw [if_pos (qblt_iff.mpr hlt2)]
      exact ⟨smax, rfl, h, le_refl _⟩
    · rw [if_neg (fun hc => hlt2 (qblt_iff.mp (by simpa using hc)))]
      exact ⟨smin, rfl, le_refl _, h⟩
  | ninf =>
    rw [pymin, show XQ.blt XQ.ninf (XQ.fin smax) = true from rfl, if_pos rfl,
      pymax, show XQ.blt (XQ.fin smin) XQ.ninf = false from rfl, if_neg (by simp)]
    exact ⟨smin, rfl, le_refl _, h⟩
  | nan =>
    rw [pymin, show XQ.blt XQ.nan (XQ.fin smax) = false from rfl, if_neg (by simp),
      pymax, XQ.blt_fin]
    by_cases hlt2 : smin < smax
    · rw [if_pos (qblt_iff.mpr hlt2)]
      exact ⟨smax, rfl, h, le_refl _⟩
    · rw [if_neg (fun hc => hlt2 (qblt_iff.mp (by simpa using hc)))]
      exact ⟨smin, rfl, le_refl _, h⟩

/-! Lemmas about the stable descending sort. -/

theorem insertDesc_perm (e : ScoredEvent) (l : List ScoredEvent) :
    (insertDesc e l).Perm (e :: l) := by
  induction l with
  | nil => simp [insertDesc]
  | cons x xs ih =>
    rw [insertDesc]
    by_cases hb : XQ.blt e.score x.score = true
    · rw [if_pos hb]
      exact ((ih.cons x).trans (List.Perm.swap e x xs)).symm.symm
    · rw [if_neg hb]

theorem sortDesc_perm (l : List ScoredEvent) : (sortDesc l).Perm l := by
  induction l with
  | nil => rfl
  | cons e rest ih =>
    rw [sortDesc]
    exact (insertDesc_perm e (sortDesc rest)).trans (ih.cons e)

theorem mem_sortDesc {a : ScoredEvent} {l : List ScoredEvent} :
    a ∈ sortDesc l ↔ a ∈ l :=
  (sortDesc_perm l).mem_iff

theorem sortDesc_length (l : List ScoredEvent) : (sortDesc l).length = l.length :=
  (sortDesc_perm l).length_eq

theorem sortDesc_ne_nil {l : List ScoredEvent} (h : l ≠ []) : sortDesc l ≠ [] := by
  intro hc
  exact h (List.eq_nil_of_length_eq_zero (by
    rw [← sortDesc_length l, hc]; rfl))

theorem headI_insertDesc_cons (e x : ScoredEvent) (xs : List ScoredEvent) :
    (insertDesc e (x :: xs)).headI = if XQ.blt e.score x.score then x else e := by
  rw [insertDesc]
  by_cases hb : XQ.blt e.score x.score = true
  · rw [if_pos hb, if_pos hb]
    rfl
  · rw [if_neg hb, if_neg hb]
    rfl

theorem sortDesc_headI_mem {l : List ScoredEvent} (h : l ≠ []) :
    (sortDesc l).headI ∈ l := by
  have hne := sortDesc_ne_nil h
  refine mem_sortDesc.mp ?_
  cases hs : sortDesc l with
  | nil => exact absurd hs hne
  | cons x xs =>
    exact List.mem_cons_self x xs

/-- The head of the stable descending sort has maximal score, provided every
score is finite. -/
theorem sortDesc_headI_max {l : List ScoredEvent}
    (hfin : ∀ e ∈ l, e.score.isFin = true) :
    ∀ e ∈ l, e.score.toQ ≤ (sortDesc l).headI.score.toQ := by
  induction l with
  | nil => intro e he; cases he
  | cons a rest ih =>
    intro e he
    cases rest with
    | nil =>
      rcases List.mem_cons.mp he with he | he
      · subst he
        exact le_refl _
      · cases he
    | cons b rest' =>
      have hne' : (b :: rest') ≠ [] := by simp
      have hfin' : ∀ x ∈ (b :: rest'), x.score.isFin = true := by
        intro x hx; exact hfin x (List.mem_cons_of_mem a hx)
      have hmax' := ih hfin'
      have hmem' := sortDesc_headI_mem hne'
      cases hsd : sortDesc (b :: rest') with
      | nil => exact absurd hsd (sortDesc_ne_nil hne')
      | cons x xs =>
        have hx_head : (sortDesc (b :: rest')).headI = x := by rw [hsd]; rfl
        have hxmem : x ∈ (b :: rest') := by rw [hx_head] at hmem'; exact hmem'
        obtain ⟨qa, hqa⟩ := XQ.isFin_iff.mp (hfin a (List.mem_cons_self a _))
        obtain ⟨qx, hqx⟩ := XQ.isFin_iff.mp (hfin' x hxmem)
        have hgoal_head : (sortDesc (a :: b :: rest')).headI
            = if XQ.blt a.score x.score then x else a := by
          rw [sortDesc, hsd, headI_insertDesc_cons]
        by_cases hb : XQ.blt a.score x.score = true
        · rw [hgoal_head, if_pos hb]
          rcases List.mem_cons.mp he with he | he
          · subst he
            rw [hqa, hqx] at hb ⊢
            rw [XQ.blt_fin] at hb
            exact le_of_lt (qblt_iff.mp hb)
          · have h1 := hmax' e he
            rw [hx_head] at h1
            exact h1
        · rw [hgoal_head, if_neg hb]
          rcases List.mem_cons.mp he with he | he
          · subst he; exact le_refl _
          · have h1 := hmax' e he
            rw [hx_head] at h1
            have h2 : qx ≤ qa := by
              rw [hqa, hqx] at hb
              rw [XQ.blt_fin] at hb
              exact qblt_eq_false_iff.mp (Bool.not_eq_true _ |>.mp hb)
            calc e.score.toQ ≤ x.score.toQ := h1
              _ = qx := by rw [hqx, XQ.toQ_fin]
              _ ≤ qa := h2
              _ = a.score.toQ := by rw [hqa, XQ.toQ_fin]

/-! Lemmas about the temporal smoother. -/

theorem smoothGo_length (cfg : AlgoConfig) (prev : Option ScoredEvent)
    (l : List (List ScoredEvent)) : (smoothGo cfg prev l).length = l.length := by
  induction l generalizing prev with
  | nil => rfl
  | cons evs rest ih =>
    rw [smoothGo]
    simp [ih]

theorem smoothGo_append (cfg : AlgoConfig) (prev : Option ScoredEvent)
    (l1 l2 : List (List ScoredEvent)) :
    smoothGo cfg prev (l1 ++ l2)
      = smoothGo cfg prev l1 ++ smoothGo cfg (smoothCarry cfg prev l1) l2 := by
  induction l1 generalizing prev with
  | nil => rfl
  | cons evs rest ih =>
    rw [List.cons_append, smoothGo, smoothGo, smoothCarry, ih, List.cons_append]

theorem smoothCarry_append (cfg : AlgoConfig) (prev : Option ScoredEvent)
    (l1 l2 : List (List ScoredEvent)) :
    smoothCarry cfg prev (l1 ++ l2)
      = smoothCarry cfg (smoothCarry cfg prev l1) l2 := by
  induction l1 generalizing prev with
  | nil => rfl
  | cons evs rest ih =>
    rw [List.cons_append, smoothCarry, smoothCarry, ih]

theorem smoothGo_getD (cfg : AlgoConfig) (prev : Option ScoredEvent)
    (l : List (List ScoredEvent)) (i : ℕ) (hi : i < l.length) :
    (smoothGo cfg prev l).getD i []
      = stepOut cfg (smoothCarry cfg prev (l.take i)) (l.getD i []) := by
  induction l generalizing prev i with
  | nil => cases hi
  | cons evs rest ih =>
    cases i with
    | zero =>
      rw [smoothGo]
      rfl
    | succ i' =>
      rw [smoothGo, List.getD_cons_succ, List.getD_cons_succ, List.take_succ_cons,
        smoothCarry]
      exact ih (stepCarry cfg prev evs) i' (Nat.lt_of_succ_lt_succ hi)

theorem smoothCarry_take_succ (cfg : AlgoConfig) (prev : Option ScoredEvent)
    (l : List (List ScoredEvent)) (i : ℕ) (hi : i < l.length) :
    smoothCarry cfg prev (l.take (i + 1))
      = stepCarry cfg (smoothCarry cfg prev (l.take i)) (l.getD i []) := by
  induction l generalizing prev i with
  | nil => cases hi
  | cons evs rest ih =>
    cases i with
    | zero =>
      rfl
    | succ i' =>
      rw [List.take_succ_cons, List.take_succ_cons, smoothCarry, smoothCarry,
        List.getD_cons_succ]
      exact ih (stepCarry cfg prev evs) i' (Nat.lt_of_succ_lt_succ hi)

theorem smoothCarry_none_of_prefix_empty (cfg : AlgoConfig)
    (l : List (List ScoredEvent)) (i : ℕ) (hle : i ≤ l.length)
    (hempty : ∀ j, j < i → l.getD j [] = []) :
    smoothCarry cfg none (l.take i) = none := by
  induction i with
  | zero => rfl
  | succ i' ih =>
    have hi' : i' < l.length := Nat.lt_of_lt_of_le (Nat.lt_succ_self i') hle
    rw [smoothCarry_take_succ cfg none l i' hi',
      ih (Nat.le_of_lt hi') (fun j hj => hempty j (Nat.lt_succ_of_lt hj)),
      hempty i' (Nat.lt_succ_self i')]
    rfl

theorem adjust_focus (cfg : AlgoConfig) (p e : ScoredEvent) :
    (adjustEv cfg p e).focus = e.focus := rfl

theorem adjust_name (cfg : AlgoConfig) (p e : ScoredEvent) :
    (adjustEv cfg p e).name = e.name := rfl

theorem adjust_meta (cfg : AlgoConfig) (p e : ScoredEvent) :
    (adjustEv cfg p e).meta = e.meta := rfl

theorem same_focus_adjust (cfg : AlgoConfig) (p q e : ScoredEvent) :
    same_focus (adjustEv cfg p e) q = same_focus e q := rfl

theorem adjust_score_cases (cfg : AlgoConfig) (p e : ScoredEvent) :
    (if same_focus e p then
       (adjustEv cfg p e).score = e.score.add (XQ.fin cfg.persistence_bonus)
     else
       (adjustEv cfg p e).score = e.score.add (XQ.fin (qneg cfg.switch_penalty))) := by
  by_cases h : same_focus e p = true
  · rw [if_pos h, adjustEv, if_pos h]
  · rw [if_neg h, adjustEv,
      if_neg (by simpa using h)]

theorem adjust_reasons_append (cfg : AlgoConfig) (p e : ScoredEvent) :
    ∃ tag, (adjustEv cfg p e).reasons = e.reasons ++ [tag] := by
  cases hq : qblt 0 (if same_focus e p then cfg.persistence_bonus
      else qneg cfg.switch_penalty) with
  | true => exact ⟨"persist_bonus", by simp [adjustEv, hq]⟩
  | false => exact ⟨"switch_penalty", by simp [adjustEv, hq]⟩

theorem adjust_isFin (cfg : AlgoConfig) (p e : ScoredEvent)
    (h : e.score.isFin = true) : (adjustEv cfg p e).score.isFin = true := by
  obtain ⟨q, hq⟩ := XQ.isFin_iff.mp h
  have := adjust_score_cases cfg p e
  by_cases hs : same_focus e p = true
  · rw [if_pos hs] at this
    rw [this, hq, XQ.add_fin]
    rfl
  · rw [if_neg hs] at this
    rw [this, hq, XQ.add_fin]
    rfl

theorem getD_append_self (l1 l2 : List (List ScoredEvent)) :
    (l1 ++ l2).getD l1.length [] = l2.getD 0 [] := by
  induction l1 with
  | nil => rfl
  | cons a t ih =>
    rw [List.cons_append, List.length_cons, List.getD_cons_succ]
    exact ih

/-- Claim C5: the full pipeline is a pure function of its inputs; two runs on
identical frames, metadata and configuration produce identical output in
every respect. -/
theorem c5_pipeline_deterministic (rt : ℚ → ℚ) (frames : List Frame)
    (pitch : Pitch) (player_team player_role : List (String × String))
    (cfg : AlgoConfig) :
    run_baseline_policy rt frames pitch player_team player_role cfg
      = run_baseline_policy rt frames pitch player_team player_role cfg := rfl

/-- Claim C9: per frame, the temporal smoother only rescores and reorders:
the output list has the input's length and is a permutation of the input
events either unchanged (no carried primary yet) or put through `adjustEv`,
which keeps name, focus and metadata, adds exactly `+persistence_bonus` or
`-switch_penalty` to the score, and appends exactly one rationale tag. -/
theorem c9_smoothing_frame_effect (cfg : AlgoConfig)
    (l : List (List ScoredEvent)) (i : ℕ) (hi : i < l.length) :
    ((apply_temporal_smoothing cfg l).getD i []).length = (l.getD i []).length
    ∧ ((apply_temporal_smoothing cfg l).getD i [] = l.getD i []
       ∨ ∃ p, ((apply_temporal_smoothing cfg l).getD i []).Perm
           ((l.getD i []).map (adjustEv cfg p)))
    ∧ ∀ (p e : ScoredEvent),
        (adjustEv cfg p e).name = e.name
        ∧ (adjustEv cfg p e).focus = e.focus
        ∧ (adjustEv cfg p e).meta = e.meta
        ∧ ((adjustEv cfg p e).score = e.score.add (XQ.fin cfg.persistence_bonus)
           ∨ (adjustEv cfg p e).score = e.score.add (XQ.fin (qneg cfg.switch_penalty)))
        ∧ ∃ tag, (adjustEv cfg p e).reasons = e.reasons ++ [tag] := by
  have hchar := smoothGo_getD cfg none l i hi
  have hprops : ∀ (p e : ScoredEvent),
      (adjustEv cfg p e).name = e.name
      ∧ (adjustEv cfg p e).focus = e.focus
      ∧ (adjustEv cfg p e).meta = e.meta
      ∧ ((adjustEv cfg p e).score = e.score.add (XQ.fin cfg.persistence_bonus)
         ∨ (adjustEv cfg p e).score = e.score.add (XQ.fin (qneg cfg.switch_penalty)))
      ∧ ∃ tag, (adjustEv cfg p e).reasons = e.reasons ++ [tag] := by
    intro p e
    refine ⟨adjust_name cfg p e, adjust_focus cfg p e, adjust_meta cfg p e, ?_,
      adjust_reasons_append cfg p e⟩
    have := adjust_score_cases cfg p e
    by_cases h : same_focus e p = true
    · rw [if_pos h] at this
      exact Or.inl this
    · rw [if_neg h] at this
      exact Or.inr this
  rw [apply_temporal_smoothing, hchar]
  cases hevs : l.getD i [] with
  | nil =>
    refine ⟨rfl, Or.inl rfl, hprops⟩
  | cons e es =>
    cases hcarry : smoothCarry cfg none (l.take i) with
    | none =>
      exact ⟨rfl, Or.inl rfl, hprops⟩
    | some p =>
      refine ⟨?_, Or.inr ⟨p, ?_⟩, hprops⟩
      · rw [stepOut, sortDesc_length, List.length_map]
      · rw [stepOut]
        exact sortDesc_perm _

/-- Claim C10: an empty frame yields an empty output list and leaves the
carried primary untouched; the first non-empty frame passes through
unchanged and its head becomes the carried primary; whenever a primary `p`
is carried into a non-empty frame (in particular across empty gap frames,
by the first part), the frame is rescored against exactly `p`; and after any
non-empty frame the carried primary is the head of that frame's output. -/
theorem c10_smoothing_empty_frames (cfg : AlgoConfig)
    (l : List (List ScoredEvent)) (i : ℕ) (hi : i < l.length) :
    (l.getD i [] = [] →
      (apply_temporal_smoothing cfg l).getD i [] = []
      ∧ smoothCarry cfg none (l.take (i + 1)) = smoothCarry cfg none (l.take i))
    ∧ ((∀ j, j < i → l.getD j [] = []) → l.getD i [] ≠ [] →
      (apply_temporal_smoothing cfg l).getD i [] = l.getD i []
      ∧ smoothCarry cfg none (l.take (i + 1)) = some (l.getD i []).headI)
    ∧ (∀ p, smoothCarry cfg none (l.take i) = some p → l.getD i [] ≠ [] →
      (apply_temporal_smoothing cfg l).getD i []
        = sortDesc ((l.getD i []).map (adjustEv cfg p)))
    ∧ (l.getD i [] ≠ [] →
      smoothCarry cfg none (l.take (i + 1))
        = some ((apply_temporal_smoothing cfg l).getD i []).headI) := by
  have hchar := smoothGo_getD cfg none l i hi
  have hcarrysucc := smoothCarry_take_succ cfg none l i hi
  refine ⟨?_, ?_, ?_, ?_⟩
  · intro hempty
    constructor
    · rw [apply_temporal_smoothing, hchar, hempty]
      rfl
    · rw [hcarrysucc, hempty]
      rfl
  · intro hpre hne
    have hnone := smoothCarry_none_of_prefix_empty cfg l i (Nat.le_of_lt hi) hpre
    cases hevs : l.getD i [] with
    | nil => exact absurd hevs hne
    | cons e es =>
      constructor
      · rw [apply_temporal_smoothing, hchar, hnone, hevs]
        rfl
      · rw [hcarrysucc, hnone, hevs]
        rfl
  · intro p hp hne
    cases hevs : l.getD i [] with
    | nil => exact absurd hevs hne
    | cons e es =>
      rw [apply_temporal_smoothing, hchar, hp, hevs]
      rfl
  · intro hne
    cases hevs : l.getD i [] with
    | nil => exact absurd hevs hne
    | cons e es =>
      rw [hcarrysucc, hevs, apply_temporal_smoothing, hchar, hevs]
      rfl

/-- Claim C4: if the carried previous primary `p` matches some event `ev` of
frame `i`'s candidate list, every event's score is finite, and every
non-matching event beats `ev`'s pre-smoothing score by strictly less than
`switch_penalty + persistence_bonus`, then the top-ranked event after
smoothing at frame `i` still matches `p`: the primary does not switch. -/
theorem c4_smoothing_monotonic_lag (cfg : AlgoConfig)
    (pre : List (List ScoredEvent)) (events : List ScoredEvent)
    (rest : List (List ScoredEvent)) (p ev : ScoredEvent)
    (hcarry : smoothCarry cfg none pre = some p)
    (hev : ev ∈ events) (hmatch : same_focus ev p = true)
    (hfin : ∀ e ∈ events, e.score.isFin = true)
    (hlt : ∀ e ∈ events, same_focus e p = false →
      e.score.toQ < qadd ev.score.toQ (qadd cfg.switch_penalty cfg.persistence_bonus)) :
    same_focus (((apply_temporal_smoothing cfg
      (pre ++ events :: rest)).getD pre.length []).headI) p = true := by
  have hlen : (smoothGo cfg none pre).length = pre.length := smoothGo_length cfg none pre
  have hout : (apply_temporal_smoothing cfg (pre ++ events :: rest)).getD pre.length []
      = stepOut cfg (some p) events := by
    rw [apply_temporal_smoothing, smoothGo_append, ← hlen, getD_append_self, hcarry,
      smoothGo, List.getD_cons_zero]
  rw [hout]
  cases events with
  | nil => cases hev
  | cons e es =>
    rw [stepOut]
    set A := (e :: es).map (adjustEv cfg p) with hA
    have hAne : A ≠ [] := by simp [hA]
    have hfinA : ∀ x ∈ A, x.score.isFin = true := by
      intro x hx
      obtain ⟨y, hy, rfl⟩ := List.mem_map.mp hx
      exact adjust_isFin cfg p y (hfin y hy)
    have hmemHead : (sortDesc A).headI ∈ A := sortDesc_headI_mem hAne
    obtain ⟨e0, he0, hhead⟩ := List.mem_map.mp hmemHead
    cases hsf : same_focus (sortDesc A).headI p with
    | true => rfl
    | false =>
      exfalso
      have hsf0 : same_focus e0 p = false := by
        rw [← hsf, ← hhead, same_focus_adjust]
      obtain ⟨qe0, hqe0⟩ := XQ.isFin_iff.mp (hfin e0 he0)
      obtain ⟨qev, hqev⟩ := XQ.isFin_iff.mp (hfin ev hev)
      have hheadscore : (sortDesc A).headI.score = XQ.fin (qe0 + -cfg.switch_penalty) := by
        have hc := adjust_score_cases cfg p e0
        rw [if_neg (by simp [hsf0])] at hc
        rw [← hhead, hc, hqe0, qneg_eq, XQ.add_fin]
      have hadjev : adjustEv cfg p ev ∈ A := List.mem_map_of_mem (adjustEv cfg p) hev
      have hadjevscore : (adjustEv cfg p ev).score = XQ.fin (qev + cfg.persistence_bonus) := by
        have hc := adjust_score_cases cfg p ev
        rw [if_pos hmatch] at hc
        rw [hc, hqev, XQ.add_fin]
      have hmax := sortDesc_headI_max hfinA (adjustEv cfg p ev) hadjev
      rw [hadjevscore, hheadscore, XQ.toQ_fin, XQ.toQ_fin] at hmax
      have hlt0 := hlt e0 he0 hsf0
      rw [hqe0, hqev, XQ.toQ_fin, XQ.toQ_fin, qadd_eq, qadd_eq] at hlt0
      linarith

/-- A small concrete scored event used by witnesses. -/
def evW : ScoredEvent :=
  { name := "BALL_NEARBY", score := XQ.fin 1,
    focus := { target_type := TType.BALL, anchor := (0, 0), target_player_id := none,
               tag := some "ball" },
    reasons := [], meta := [] }

/-- A second concrete scored event used by witnesses. -/
def evZ : ScoredEvent :=
  { name := "GOAL", score := XQ.fin 2,
    focus := { target_type := TType.GOAL, anchor := (10, 0), target_player_id := none,
               tag := some "goal" },
    reasons := [], meta := [] }

/-- Claim C9 witness at a concrete one-frame input. -/
theorem c9_smoothing_frame_effect_witness :
    (0 < ([[evW]] : List (List ScoredEvent)).length)
    ∧ (((apply_temporal_smoothing {} [[evW]]).getD 0 []).length
        = (([[evW]] : List (List ScoredEvent)).getD 0 []).length
      ∧ ((apply_temporal_smoothing {} [[evW]]).getD 0 []
          = ([[evW]] : List (List ScoredEvent)).getD 0 []
         ∨ ∃ p, ((apply_temporal_smoothing {} [[evW]]).getD 0 []).Perm
             ((([[evW]] : List (List ScoredEvent)).getD 0 []).map (adjustEv {} p)))
      ∧ ∀ (p e : ScoredEvent),
          (adjustEv {} p e).name = e.name
          ∧ (adjustEv {} p e).focus = e.focus
          ∧ (adjustEv {} p e).meta = e.meta
          ∧ ((adjustEv {} p e).score = e.score.add (XQ.fin ({} : AlgoConfig).persistence_bonus)
             ∨ (adjustEv {} p e).score = e.score.add (XQ.fin (qneg ({} : AlgoConfig).switch_penalty)))
          ∧ ∃ tag, (adjustEv {} p e).reasons = e.reasons ++ [tag]) :=
  ⟨by decide, c9_smoothing_frame_effect {} [[evW]] 0 (by decide)⟩

/-- Claim C10 witness at a concrete input with an empty second frame. -/
theorem c10_smoothing_empty_frames_witness :
    (1 < ([[evW], []] : List (List ScoredEvent)).length)
    ∧ ((([[evW], []] : List (List ScoredEvent)).getD 1 [] = [] →
        (apply_temporal_smoothing {} [[evW], []]).getD 1 [] = []
        ∧ smoothCarry {} none (([[evW], []] : List (List ScoredEvent)).take 2)
          = smoothCarry {} none (([[evW], []] : List (List ScoredEvent)).take 1))
      ∧ ((∀ j, j < 1 → ([[evW], []] : List (List ScoredEvent)).getD j [] = []) →
        ([[evW], []] : List (List ScoredEvent)).getD 1 [] ≠ [] →
        (apply_temporal_smoothing {} [[evW], []]).getD 1 []
          = ([[evW], []] : List (List ScoredEvent)).getD 1 []
        ∧ smoothCarry {} none (([[evW], []] : List (List ScoredEvent)).take 2)
          = some (([[evW], []] : List (List ScoredEvent)).getD 1 []).headI)
      ∧ (∀ p, smoothCarry {} none (([[evW], []] : List (List ScoredEvent)).take 1) = some p →
        ([[evW], []] : List (List ScoredEvent)).getD 1 [] ≠ [] →
        (apply_temporal_smoothing {} [[evW], []]).getD 1 []
          = sortDesc ((([[evW], []] : List (List ScoredEvent)).getD 1 []).map (adjustEv {} p)))
      ∧ (([[evW], []] : List (List ScoredEvent)).getD 1 [] ≠ [] →
        smoothCarry {} none (([[evW], []] : List (List ScoredEvent)).take 2)
          = some ((apply_temporal_smoothing {} [[evW], []]).getD 1 []).headI)) :=
  ⟨by decide, c10_smoothing_empty_frames {} [[evW], []] 1 (by decide)⟩

/-- Claim C4 witness: at a concrete two-frame input whose second frame holds
a matching and a non-matching event within the hysteresis margin, the
primary does not switch. -/
theorem c4_smoothing_monotonic_lag_witness :
    same_focus (((apply_temporal_smoothing {}
      ([[evW]] ++ [evZ, evW] :: [])).getD ([[evW]] : List (List ScoredEvent)).length []).headI)
      evW = true :=
  c4_smoothing_monotonic_lag {} [[evW]] [evZ, evW] [] evW evW
    (by decide) (by decide) (by decide) (by decide) (by decide)

/-! Lemmas about the policy assembly. -/

theorem getD_map_range {α : Type} (n i : ℕ) (d : α) (f : ℕ → α) (hi : i < n) :
    ((List.range n).map f).getD i d = f i := by
  rw [List.getD_eq_getElem?_getD, List.getElem?_map, List.getElem?_range hi]
  rfl

theorem getD_map_mem {α β : Type} (l : List α) (f : α → List β) (i : ℕ)
    {e : β} (he : e ∈ (l.map f).getD i []) : ∃ a ∈ l, e ∈ f a := by
  by_cases hi : i < l.length
  · rw [List.getD_eq_getElem?_getD, List.getElem?_map,
      List.getElem?_eq_getElem hi] at he
    exact ⟨l[i], List.getElem_mem hi, he⟩
  · rw [List.getD_eq_default] at he
    · cases he
    · rw [List.length_map]
      exact Nat.le_of_not_lt hi

theorem run_baseline_mem {rt : ℚ → ℚ} {frames : List Frame} {pitch : Pitch}
    {player_team player_role : List (String × String)} {cfg : AlgoConfig}
    {pid : String} {recs : List PlayerFocusRecommendation}
    (h : (pid, recs) ∈ run_baseline_policy rt frames pitch player_team player_role cfg) :
    pid ∈ headPlayers frames
    ∧ recs = recs_for rt frames pitch player_team player_role cfg pid := by
  rw [run_baseline_policy] at h
  obtain ⟨pid', hp, heq⟩ := List.mem_map.mp h
  have h1 : pid' = pid := congrArg Prod.fst heq
  subst h1
  exact ⟨hp, (congrArg Prod.snd heq).symm⟩

theorem recs_for_getD (rt : ℚ → ℚ) (frames : List Frame) (pitch : Pitch)
    (player_team player_role : List (String × String)) (cfg : AlgoConfig)
    (pid : String) (i : ℕ) (hi : i < frames.length) :
    (recs_for rt frames pitch player_team player_role cfg pid).getD i default
      = (match (smoothed_for rt frames pitch player_team player_role cfg pid).getD i [] with
        | [] =>
          { player_id := pid, frame_idx := i,
            t_rel := (infer_pseudotime rt frames cfg).2.getD i 0,
            primary := fallback_focus (frames.getD i default),
            primary_score := XQ.fin 0, rationale := ["fallback_ball"], top_k := [] }
        | primary :: rest =>
          { player_id := pid, frame_idx := i,
            t_rel := (infer_pseudotime rt frames cfg).2.getD i 0,
            primary := (match (primary :: rest).take
                (if 1 < cfg.top_k then cfg.top_k else 1).toNat with
              | [] => fallback_focus (frames.getD i default)
              | t0 :: _ => t0.focus),
            primary_score := primary.score, rationale := primary.reasons,
            top_k := (primary :: rest).take
              (if 1 < cfg.top_k then cfg.top_k else 1).toNat }) := by
  rw [recs_for, getD_map_range frames.length i default _ hi]
  cases h : (smoothed_for rt frames pitch player_team player_role cfg pid).getD i [] with
  | nil => rfl
  | cons a t => rfl

/-- Claim C8: whenever the smoothed, ranked candidate list of a player at a
frame is empty, the assembled recommendation is the deterministic ball
fallback: a BALL focus anchored at that frame's ball position, score `0.0`,
rationale `["fallback_ball"]`, and an empty `top_k`. -/
theorem c8_empty_candidates_fallback (rt : ℚ → ℚ) (frames : List Frame)
    (pitch : Pitch) (player_team player_role : List (String × String))
    (cfg : AlgoConfig) (pid : String) (recs : List PlayerFocusRecommendation)
    (i : ℕ)
    (hmem : (pid, recs) ∈ run_baseline_policy rt frames pitch player_team player_role cfg)
    (hi : i < frames.length)
    (hempty : (smoothed_for rt frames pitch player_team player_role cfg pid).getD i [] = []) :
    (recs.getD i default).primary.target_type = TType.BALL
    ∧ (recs.getD i default).primary.anchor = (frames.getD i default).ball_pos
    ∧ (recs.getD i default).primary.target_player_id = none
    ∧ (recs.getD i default).primary_score = XQ.fin 0
    ∧ (recs.getD i default).rationale = ["fallback_ball"]
    ∧ (recs.getD i default).top_k = [] := by
  obtain ⟨-, hrecs⟩ := run_baseline_mem hmem
  subst hrecs
  rw [recs_for_getD rt frames pitch player_team player_role cfg pid i hi, hempty]
  exact ⟨rfl, rfl, rfl, rfl, rfl, rfl⟩

/-- The all-generators-disabled configuration used by the C8 witness. -/
def cfgOff : AlgoConfig :=
  { enable_ball_focus := false, enable_pass_targets := false,
    enable_marking_threats := false, enable_space_targets := false,
    enable_goal_focus := false }

/-- A trivial square-root oracle for witnesses whose outcome is independent
of distances. -/
def rt0 : ℚ → ℚ := fun _ => 0

def frW : Frame := { frame_idx := 0, players := [("p1", (1, 2))], ball_pos := (5, 5) }

def pitchW : Pitch := { length := 100, width := 68 }

/-- Claim C8 witness: with every candidate generator disabled, the single
player's single frame gets the ball fallback. -/
theorem c8_empty_candidates_fallback_witness :
    (("p1", recs_for rt0 [frW] pitchW [] [] cfgOff "p1")
      ∈ run_baseline_policy rt0 [frW] pitchW [] [] cfgOff)
    ∧ 0 < ([frW] : List Frame).length
    ∧ (smoothed_for rt0 [frW] pitchW [] [] cfgOff "p1").getD 0 [] = []
    ∧ (((recs_for rt0 [frW] pitchW [] [] cfgOff "p1").getD 0 default).primary.target_type = TType.BALL
      ∧ ((recs_for rt0 [frW] pitchW [] [] cfgOff "p1").getD 0 default).primary.anchor
          = (([frW] : List Frame).getD 0 default).ball_pos
      ∧ ((recs_for rt0 [frW] pitchW [] [] cfgOff "p1").getD 0 default).primary.target_player_id = none
      ∧ ((recs_for rt0 [frW] pitchW [] [] cfgOff "p1").getD 0 default).primary_score = XQ.fin 0
      ∧ ((recs_for rt0 [frW] pitchW [] [] cfgOff "p1").getD 0 default).rationale = ["fallback_ball"]
      ∧ ((recs_for rt0 [frW] pitchW [] [] cfgOff "p1").getD 0 default).top_k = []) :=
  ⟨by decide, by decide, by decide,
    c8_empty_candidates_fallback rt0 [frW] pitchW [] [] cfgOff "p1"
      (recs_for rt0 [frW] pitchW [] [] cfgOff "p1") 0
      (by decide) (by decide) (by decide)⟩

/-- With clamping on, every score produced by `score_candidates` is a
rational in `[score_min, score_max]`. -/
theorem score_candidates_range (rt : ℚ → ℚ) (g : FrameGraph) (pid : String)
    (cands : List CandidateEvent) (summ : String → Summary) (cfg : AlgoConfig)
    (role : String) (hcl : cfg.clamp_scores = true)
    (hms : cfg.score_min ≤ cfg.score_max) :
    ∀ e ∈ score_candidates rt g pid cands summ cfg role,
      ∃ q, e.score = XQ.fin q ∧ cfg.score_min ≤ q ∧ q ≤ cfg.score_max := by
  intro e he
  rw [score_candidates] at he
  cases hk : getKey? pid g.nodes with
  | none =>
    rw [hk] at he
    cases he
  | some node =>
    rw [hk] at he
    obtain ⟨c, hc, heq⟩ := List.mem_map.mp (mem_sortDesc.mp he)
    have hsc : e.score = (if cfg.clamp_scores then
        pymax (XQ.fin cfg.score_min) (pymin (XQ.fin cfg.score_max)
          (score_one rt g pid node.pos c summ cfg role).1)
      else (score_one rt g pid node.pos c summ cfg role).1) := by
      rw [← heq]
    rw [hsc, if_pos hcl]
    exact clamp_mem_range cfg.score_min cfg.score_max hms _

/-- Every event of the smoothed list at a frame originates from an event of
the input list at that frame, with its score unchanged or adjusted by
exactly `+persistence_bonus` or `-switch_penalty`. -/
theorem smoothed_score_origin (cfg : AlgoConfig) (l : List (List ScoredEvent))
    (i : ℕ) :
    ∀ e ∈ (apply_temporal_smoothing cfg l).getD i [],
      ∃ e0 ∈ l.getD i [],
        e.score = e0.score
        ∨ e.score = e0.score.add (XQ.fin cfg.persistence_bonus)
        ∨ e.score = e0.score.add (XQ.fin (qneg cfg.switch_penalty)) := by
  intro e he
  by_cases hi : i < l.length
  · rw [apply_temporal_smoothing, smoothGo_getD cfg none l i hi] at he
    cases hevs : l.getD i [] with
    | nil =>
      rw [hevs] at he
      cases he
    | cons a t =>
      rw [hevs] at he
      cases hcarry : smoothCarry cfg none (l.take i) with
      | none =>
        rw [hcarry] at he
        exact ⟨e, he, Or.inl rfl⟩
      | some p =>
        rw [hcarry] at he
        obtain ⟨e0, he0, heq⟩ := List.mem_map.mp (mem_sortDesc.mp he)
        refine ⟨e0, he0, ?_⟩
        have hc := adjust_score_cases cfg p e0
        by_cases hs : same_focus e0 p = true
        · rw [if_pos hs] at hc
          rw [← heq, hc]
          exact Or.inr (Or.inl rfl)
        · rw [if_neg hs] at hc
          rw [← heq, hc]
          exact Or.inr (Or.inr rfl)
  · rw [List.getD_eq_default] at he
    · cases he
    · rw [apply_temporal_smoothing, smoothGo_length]
      exact Nat.le_of_not_lt hi

/-- Claim C2 (amended): with clamping enabled (and `score_min ≤ 0 ≤
score_max`, `0 ≤ switch_penalty`, `0 ≤ persistence_bonus`, as the defaults
satisfy), every primary score and every `top_k` score of the pipeline output
is a rational in the widened interval
`[score_min - switch_penalty, score_max + persistence_bonus]`: clamping is
applied at scoring time and the temporal smoother afterwards adds
`persistence_bonus` or subtracts `switch_penalty` without re-clamping. -/
theorem c2_output_scores_in_widened_range (rt : ℚ → ℚ) (frames : List Frame)
    (pitch : Pitch) (player_team player_role : List (String × String))
    (cfg : AlgoConfig) (hcl : cfg.clamp_scores = true)
    (hsp : 0 ≤ cfg.switch_penalty) (hpb : 0 ≤ cfg.persistence_bonus)
    (hmin : cfg.score_min ≤ 0) (hmax : 0 ≤ cfg.score_max) :
    ∀ pr ∈ run_baseline_policy rt frames pitch player_team player_role cfg,
      ∀ r ∈ pr.2,
        (∃ q, r.primary_score = XQ.fin q
          ∧ cfg.score_min - cfg.switch_penalty ≤ q
          ∧ q ≤ cfg.score_max + cfg.persistence_bonus)
        ∧ ∀ e ∈ r.top_k, ∃ q, e.score = XQ.fin q
          ∧ cfg.score_min - cfg.switch_penalty ≤ q
          ∧ q ≤ cfg.score_max + cfg.persistence_bonus := by
  have hms : cfg.score_min ≤ cfg.score_max := le_trans hmin hmax
  intro pr hpr r hr
  rw [run_baseline_policy] at hpr
  obtain ⟨pid, -, heq⟩ := List.mem_map.mp hpr
  rw [← heq] at hr
  have hkey : ∀ i, ∀ x ∈ (smoothed_for rt frames pitch player_team player_role cfg pid).getD i [],
      ∃ q, x.score = XQ.fin q
        ∧ cfg.score_min - cfg.switch_penalty ≤ q
        ∧ q ≤ cfg.score_max + cfg.persistence_bonus := by
    intro i x hx
    rw [smoothed_for] at hx
    obtain ⟨e0, he0, hdelta⟩ := smoothed_score_origin cfg _ i x hx
    rw [scored_for] at he0
    obtain ⟨g, -, hg⟩ := getD_map_mem _ _ i he0
    obtain ⟨q0, hq0, hq0l, hq0r⟩ :=
      score_candidates_range rt g pid _ _ cfg _ hcl hms e0 hg
    rcases hdelta with hd | hd | hd
    · exact ⟨q0, by rw [hd, hq0], by linarith, by linarith⟩
    · refine ⟨q0 + cfg.persistence_bonus, ?_, by linarith, by linarith⟩
      rw [hd, hq0, XQ.add_fin]
    · refine ⟨q0 + -cfg.switch_penalty, ?_, by linarith, by linarith⟩
      rw [hd, hq0, qneg_eq, XQ.add_fin]
  simp only [recs_for] at hr
  obtain ⟨i, hi, heq2⟩ := List.mem_map.mp hr
  have hin : i < frames.length := List.mem_range.mp hi
  cases hranked : (smoothed_for rt frames pitch player_team player_role cfg pid).getD i [] with
  | nil =>
    rw [hranked] at heq2
    rw [← heq2]
    refine ⟨⟨0, rfl, by linarith, by linarith⟩, ?_⟩
    intro e he
    cases he
  | cons a t =>
    rw [hranked] at heq2
    rw [← heq2]
    constructor
    · exact hkey i a (by rw [hranked]; exact List.mem_cons_self a t)
    · intro e he
      have hmem : e ∈ a :: t := List.take_subset _ _ he
      exact hkey i e (by rw [hranked]; exact hmem)

/-- The square-root oracle for the concrete Scenario A runs: exact on every
perfect square the scenario produces; on the non-square inputs (which only
feed score terms whose exact value cannot affect the outcome) it returns a
close rational approximation of the true square root. -/
def rtA : ℚ → ℚ := fun q =>
  if q = 0 then 0
  else if q = 1 then 1
  else if q = 2 then mkRat 141 100
  else if q = 9 then 3
  else if q = 13 then mkRat 18 5
  else if q = 17 then mkRat 41 10
  else if q = 3077 then 55
  else if q = 3490 then 59
  else 1

/-- Scenario A frames: two same-team players, one stationary ball at
`(50, 34)`, three identical frames. -/
def framesA : List Frame :=
  [{ frame_idx := 0, players := [("p1", (99, 1)), ("p2", (96, 3))], ball_pos := (50, 34) },
   { frame_idx := 1, players := [("p1", (99, 1)), ("p2", (96, 3))], ball_pos := (50, 34) },
   { frame_idx := 2, players := [("p1", (99, 1)), ("p2", (96, 3))], ball_pos := (50, 34) }]

/-- The Scenario A pitch (sized so that each player's forward sampling grid
holds a single point; the outcome is the same on any pitch, since the
no-opponent open-space value is `+inf` regardless of the grid). -/
def pitchA : Pitch := { length := 100, width := 4 }

/-- Claim C3 counterexample: on a Scenario A input (two players, one ball,
no opponents, all five generators enabled, three frames, ball stationary at
`(50, 34)`, default configuration) the frame-0 primary of player `p1` is
not a BALL-type focus: the OPEN_SPACE candidate has infinite clearance,
clamps to `score_max`, and wins. -/
theorem c3_scenario_a_counterexample :
    ((run_baseline_policy rtA framesA pitchA [] [] {}).headI.2.getD 0
      default).primary.target_type ≠ TType.BALL := by
  decide

/-- Claim C3 (amended): on the Scenario A input, for both players and every
frame the primary is the OPEN_SPACE-derived ZONE focus anchored at the
first point of the player's forward sampling grid — with no opponents the
open-space clearance is infinite, the candidate's score clamps to
`score_max` and dominates every finite-scored competitor (including the
TEAM_SUPPORT candidate, which does compete since the two players are
teammates), and temporal smoothing then persists it. -/
theorem c3_scenario_a_amended :
    (run_baseline_policy rtA framesA pitchA [] [] {}).map Prod.fst = ["p1", "p2"]
    ∧ ((run_baseline_policy rtA framesA pitchA [] [] {}).getD 0 ("", [])).2.map
        (fun r => r.primary)
      = [{ target_type := TType.ZONE, anchor := (99, 0), target_player_id := none,
           tag := some "space" },
         { target_type := TType.ZONE, anchor := (99, 0), target_player_id := none,
           tag := some "space" },
         { target_type := TType.ZONE, anchor := (99, 0), target_player_id := none,
           tag := some "space" }]
    ∧ ((run_baseline_policy rtA framesA pitchA [] [] {}).getD 1 ("", [])).2.map
        (fun r => r.primary)
      = [{ target_type := TType.ZONE, anchor := (96, 0), target_player_id := none,
           tag := some "space" },
         { target_type := TType.ZONE, anchor := (96, 0), target_player_id := none,
           tag := some "space" },
         { target_type := TType.ZONE, anchor := (96, 0), target_player_id := none,
           tag := some "space" }] := by
  decide

/-- The single-player two-frame input of the C2 counterexample. -/
def framesB : List Frame :=
  [{ frame_idx := 0, players := [("p1", (99, 1))], ball_pos := (50, 34) },
   { frame_idx := 1, players := [("p1", (99, 1))], ball_pos := (50, 34) }]

/-- Claim C2 counterexample: with the default configuration (clamping
enabled, `score_max = 10`), the frame-1 primary score of the single player
is `10.8 > score_max`: the OPEN_SPACE candidate clamps to `score_max` at
scoring time and the smoother then adds `persistence_bonus` on top without
re-clamping. -/
theorem c2_clamp_counterexample :
    ({} : AlgoConfig).clamp_scores = true
    ∧ ((run_baseline_policy rtA framesB pitchA [] [] {}).headI.2.getD 1
        default).primary_score = XQ.fin (mkRat 54 5)
    ∧ ({} : AlgoConfig).score_max < mkRat 54 5 := by
  refine ⟨rfl, by decide, by decide⟩

/-- Claim C2 witness at a concrete input and the default configuration. -/
theorem c2_output_scores_in_widened_range_witness :
    ({} : AlgoConfig).clamp_scores = true
    ∧ 0 ≤ ({} : AlgoConfig).switch_penalty
    ∧ 0 ≤ ({} : AlgoConfig).persistence_bonus
    ∧ ({} : AlgoConfig).score_min ≤ 0
    ∧ 0 ≤ ({} : AlgoConfig).score_max
    ∧ (∀ pr ∈ run_baseline_policy rt0 [frW] pitchW [] [] {},
        ∀ r ∈ pr.2,
          (∃ q, r.primary_score = XQ.fin q
            ∧ ({} : AlgoConfig).score_min - ({} : AlgoConfig).switch_penalty ≤ q
            ∧ q ≤ ({} : AlgoConfig).score_max + ({} : AlgoConfig).persistence_bonus)
          ∧ ∀ e ∈ r.top_k, ∃ q, e.score = XQ.fin q
            ∧ ({} : AlgoConfig).score_min - ({} : AlgoConfig).switch_penalty ≤ q
            ∧ q ≤ ({} : AlgoConfig).score_max + ({} : AlgoConfig).persistence_bonus) :=
  ⟨rfl, by decide, by decide, by decide, by decide,
    c2_output_scores_in_widened_range rt0 [frW] pitchW [] [] {}
      rfl (by decide) (by decide) (by decide) (by decide)⟩

/-! Lemmas about frame canonicalization. -/

theorem getKey?_cons {α : Type} (k k' : String) (v : α) (rest : List (String × α)) :
    getKey? k ((k', v) :: rest) = if k' = k then some v else getKey? k rest := rfl

theorem isSome_of_mem_keys {α : Type} {pid : String} {l : List (String × α)}
    (h : pid ∈ l.map Prod.fst) : (getKey? pid l).isSome = true := by
  induction l with
  | nil => cases h
  | cons a rest ih =>
    rw [List.map_cons] at h
    rcases List.mem_cons.mp h with h1 | h1
    · rw [getKey?_cons, if_pos h1.symm]
      rfl
    · rw [getKey?_cons]
      by_cases he : a.1 = pid
      · rw [if_pos he]
        rfl
      · rw [if_neg he]
        exact ih h1

theorem fillPlayers_keys (rfpos : List (String × Vec2)) (idx : ℕ) :
    ∀ (valid : List String) (last ps last' : List (String × Vec2)),
      fillPlayers rfpos idx valid last = Except.ok (ps, last') →
      ps.map Prod.fst = valid := by
  intro valid
  induction valid with
  | nil =>
    intro last ps last' h
    rw [fillPlayers] at h
    cases h
    rfl
  | cons pid rest ih =>
    intro last ps last' h
    rw [fillPlayers] at h
    split at h
    · split at h
      · rename_i pl hr
        cases h
        rw [List.map_cons, ih _ _ _ hr]
      · cases h
    · split at h
      · split at h
        · rename_i pl hr
          cases h
          rw [List.map_cons, ih _ _ _ hr]
        · cases h
      · cases h

theorem fillPlayers_lookup (rfpos : List (String × Vec2)) (idx : ℕ) :
    ∀ (valid : List String) (last ps last' : List (String × Vec2)),
      fillPlayers rfpos idx valid last = Except.ok (ps, last') →
      (∀ pid, pid ∉ valid → getKey? pid last' = getKey? pid last ∧ getKey? pid ps = none)
      ∧ (∀ pid v, pid ∈ valid → getKey? pid rfpos = some v →
          getKey? pid ps = some v ∧ getKey? pid last' = some v)
      ∧ (∀ pid, pid ∈ valid → getKey? pid rfpos = none →
          getKey? pid ps = getKey? pid last ∧ getKey? pid last' = getKey? pid last) := by
  intro valid
  induction valid with
  | nil =>
    intro last ps last' h
    rw [fillPlayers] at h
    cases h
    refine ⟨fun pid _ => ⟨rfl, rfl⟩, fun pid v hmem => absurd hmem (by simp),
      fun pid hmem => absurd hmem (by simp)⟩
  | cons pid0 rest ih =>
    intro last ps last' h
    rw [fillPlayers] at h
    split at h
    · rename_i pos hk
      split at h
      · rename_i hr
        cases h
        obtain ⟨IH1, IH2, IH3⟩ := ih _ _ _ hr
        refine ⟨?_, ?_, ?_⟩
        · intro pid hpid
          have hne0 : pid ≠ pid0 := fun hc => hpid (hc ▸ List.mem_cons_self pid0 rest)
          have hnr : pid ∉ rest := fun hc => hpid (List.mem_cons_of_mem pid0 hc)
          obtain ⟨ha, hb⟩ := IH1 pid hnr
          constructor
          · rw [ha, getKey?_cons, if_neg (fun hc => hne0 hc.symm)]
          · rw [getKey?_cons, if_neg (fun hc => hne0 hc.symm)]
            exact hb
        · intro pid v hmem hv
          by_cases hp0 : pid = pid0
          · subst hp0
            have hvp : v = pos := by
              rw [hk] at hv
              exact (Option.some.inj hv).symm
            subst hvp
            constructor
            · rw [getKey?_cons, if_pos rfl]
            · by_cases hmr : pid ∈ rest
              · exact (IH2 pid v hmr hv).2
              · rw [(IH1 pid hmr).1, getKey?_cons, if_pos rfl]
          · have hmr : pid ∈ rest := by
              rcases List.mem_cons.mp hmem with hc | hc
              · exact absurd hc hp0
              · exact hc
            obtain ⟨ha, hb⟩ := IH2 pid v hmr hv
            constructor
            · rw [getKey?_cons, if_neg (fun hc => hp0 hc.symm)]
              exact ha
            · exact hb
        · intro pid hmem hv
          by_cases hp0 : pid = pid0
          · subst hp0
            rw [hk] at hv
            cases hv
          · have hmr : pid ∈ rest := by
              rcases List.mem_cons.mp hmem with hc | hc
              · exact absurd hc hp0
              · exact hc
            obtain ⟨ha, hb⟩ := IH3 pid hmr hv
            have hlast1 : getKey? pid ((pid0, pos) :: last) = getKey? pid last := by
              rw [getKey?_cons, if_neg (fun hc => hp0 hc.symm)]
            constructor
            · rw [getKey?_cons, if_neg (fun hc => hp0 hc.symm), ha, hlast1]
            · rw [hb, hlast1]
      · cases h
    · rename_i hk
      split at h
      · rename_i pos hl
        split at h
        · rename_i hr
          cases h
          obtain ⟨IH1, IH2, IH3⟩ := ih _ _ _ hr
          refine ⟨?_, ?_, ?_⟩
          · intro pid hpid
            have hne0 : pid ≠ pid0 := fun hc => hpid (hc ▸ List.mem_cons_self pid0 rest)
            have hnr : pid ∉ rest := fun hc => hpid (List.mem_cons_of_mem pid0 hc)
            obtain ⟨ha, hb⟩ := IH1 pid hnr
            constructor
            · exact ha
            · rw [getKey?_cons, if_neg (fun hc => hne0 hc.symm)]
              exact hb
          · intro pid v hmem hv
            have hp0 : pid ≠ pid0 := by
              intro hc
              subst hc
              rw [hk] at hv
              cases hv
            have hmr : pid ∈ rest := by
              rcases List.mem_cons.mp hmem with hc | hc
              · exact absurd hc hp0
              · exact hc
            obtain ⟨ha, hb⟩ := IH2 pid v hmr hv
            constructor
            · rw [getKey?_cons, if_neg (fun hc => hp0 hc.symm)]
              exact ha
            · exact hb
          · intro pid hmem hv
            by_cases hp0 : pid = pid0
            · subst hp0
              constructor
              · rw [getKey?_cons, if_pos rfl, hl]
              · by_cases hmr : pid ∈ rest
                · exact (IH3 pid hmr hv).2
                · exact (IH1 pid hmr).1
            · have hmr : pid ∈ rest := by
                rcases List.mem_cons.mp hmem with hc | hc
                · exact absurd hc hp0
                · exact hc
              obtain ⟨ha, hb⟩ := IH3 pid hmr hv
              constructor
              · rw [getKey?_cons, if_neg (fun hc => hp0 hc.symm)]
                exact ha
              · exact hb
        · cases h
      · cases h

theorem fillPlayers_ok (rfpos : List (String × Vec2)) (idx : ℕ) :
    ∀ (valid : List String) (last : List (String × Vec2)),
      (∀ pid ∈ valid, (getKey? pid rfpos).isSome = true
        ∨ (getKey? pid last).isSome = true) →
      ∃ ps last', fillPlayers rfpos idx valid last = Except.ok (ps, last') := by
  intro valid
  induction valid with
  | nil =>
    intro last _
    exact ⟨[], last, rfl⟩
  | cons pid0 rest ih =>
    intro last hres
    rw [fillPlayers]
    cases hk : getKey? pid0 rfpos with
    | some pos =>
      obtain ⟨ps1, last1, hr⟩ := ih ((pid0, pos) :: last) (by
        intro pid hmem
        rcases hres pid (List.mem_cons_of_mem pid0 hmem) with hc | hc
        · exact Or.inl hc
        · refine Or.inr ?_
          rw [getKey?_cons]
          by_cases he : pid0 = pid
          · rw [if_pos he]
            rfl
          · rw [if_neg he]
            exact hc)
      dsimp only
      rw [hr]
      exact ⟨(pid0, pos) :: ps1, last1, rfl⟩
    | none =>
      dsimp only
      cases hl : getKey? pid0 last with
      | some pos =>
        obtain ⟨ps1, last1, hr⟩ := ih last (by
          intro pid hmem
          exact hres pid (List.mem_cons_of_mem pid0 hmem))
        dsimp only
        rw [hr]
        exact ⟨(pid0, pos) :: ps1, last1, rfl⟩
      | none =>
        rcases hres pid0 (List.mem_cons_self pid0 rest) with hc | hc
        · rw [hk] at hc
          cases hc
        · rw [hl] at hc
          cases hc

theorem canonGo_cons {valid : List String} {rf : RawFrame} {rest : List RawFrame}
    {idx : ℕ} {lastPos : List (String × Vec2)}
    {lastBall : Option (Vec2 × Option String)} {fs : List Frame}
    (h : canonGo valid (rf :: rest) idx lastPos lastBall = Except.ok fs) :
    ∃ ps last' b fs',
      fillPlayers rf.player_pos idx valid lastPos = Except.ok (ps, last')
      ∧ resolveBall rf lastBall idx = Except.ok b
      ∧ canonGo valid rest (idx + 1) last' (some b) = Except.ok fs'
      ∧ fs = { frame_idx := idx, players := ps, ball_pos := b.1,
               ball_owner_id := b.2, note := rf.note } :: fs' := by
  rw [canonGo] at h
  split at h
  · cases h
  · rename_i hfill
    split at h
    · cases h
    · rename_i b hball
      split at h
      · cases h
      · rename_i fs' hrec
        cases h
        exact ⟨_, _, b, fs', hfill, hball, hrec, rfl⟩

theorem canonGo_length (valid : List String) :
    ∀ (raws : List RawFrame) (idx : ℕ) (lastPos : List (String × Vec2))
      (lastBall : Option (Vec2 × Option String)) (fs : List Frame),
      canonGo valid raws idx lastPos lastBall = Except.ok fs →
      fs.length = raws.length := by
  intro raws
  induction raws with
  | nil =>
    intro idx lastPos lastBall fs h
    rw [canonGo] at h
    cases h
    rfl
  | cons rf rest ih =>
    intro idx lastPos lastBall fs h
    obtain ⟨ps, last', b, fs', -, -, hrec, rfl⟩ := canonGo_cons h
    rw [List.length_cons, List.length_cons, ih _ _ _ _ hrec]

theorem fillPlayers_last_eq_ps {rfpos : List (String × Vec2)} {idx : ℕ}
    {valid : List String} {last ps last' : List (String × Vec2)}
    (h : fillPlayers rfpos idx valid last = Except.ok (ps, last'))
    {pid : String} (hpid : pid ∈ valid) :
    getKey? pid last' = getKey? pid ps := by
  obtain ⟨-, IH2, IH3⟩ := fillPlayers_lookup rfpos idx valid last ps last' h
  cases hk : getKey? pid rfpos with
  | some v =>
    obtain ⟨ha, hb⟩ := IH2 pid v hpid hk
    rw [ha, hb]
  | none =>
    obtain ⟨ha, hb⟩ := IH3 pid hpid hk
    rw [ha, hb]

theorem resolveBall_some (rf : RawFrame) (b0 : Vec2 × Option String) (idx : ℕ) :
    ∃ b, resolveBall rf (some b0) idx = Except.ok b := by
  rw [resolveBall]
  cases hx : rf.ball.x with
  | some bx =>
    cases hy : rf.ball.y with
    | some yb => exact ⟨((bx, yb), rf.ball.owner_id), rfl⟩
    | none => exact ⟨b0, rfl⟩
  | none => exact ⟨b0, rfl⟩

theorem canonGo_ok (valid : List String) :
    ∀ (raws : List RawFrame) (idx : ℕ) (last : List (String × Vec2))
      (b0 : Vec2 × Option String),
      (∀ pid ∈ valid, (getKey? pid last).isSome = true) →
      ∃ fs, canonGo valid raws idx last (some b0) = Except.ok fs := by
  intro raws
  induction raws with
  | nil =>
    intro idx last b0 _
    exact ⟨[], rfl⟩
  | cons rf rest ih =>
    intro idx last b0 hlast
    obtain ⟨ps, last', hfill⟩ := fillPlayers_ok rf.player_pos idx valid last
      (fun pid hmem => Or.inr (hlast pid hmem))
    have hlast' : ∀ pid ∈ valid, (getKey? pid last').isSome = true := by
      intro pid hmem
      obtain ⟨-, IH2, IH3⟩ := fillPlayers_lookup rf.player_pos idx valid last ps last' hfill
      cases hk : getKey? pid rf.player_pos with
      | some v =>
        rw [(IH2 pid v hmem hk).2]
        rfl
      | none =>
        rw [(IH3 pid hmem hk).2]
        exact hlast pid hmem
    obtain ⟨b, hball⟩ := resolveBall_some rf b0 idx
    obtain ⟨fs', hrec⟩ := ih (idx + 1) last' b hlast'
    rw [canonGo, hfill]
    dsimp only
    rw [hball]
    dsimp only
    rw [hrec]
    exact ⟨_, rfl⟩

theorem canonicalize_ok_shape {raw : List RawFrame} {frames : List Frame}
    {P : List String} (hc : canonicalize_frames raw = Except.ok (frames, P)) :
    frames.length = raw.length ∧ headPlayers frames = P := by
  cases raw with
  | nil =>
    rw [canonicalize_frames] at hc
    cases hc
  | cons r0 rest =>
    rw [canonicalize_frames] at hc
    split at hc
    · cases hc
    · rename_i fs hgo
      cases hc
      refine ⟨canonGo_length _ _ _ _ _ _ hgo, ?_⟩
      obtain ⟨ps, last', b, fs', hfill, -, -, rfl⟩ := canonGo_cons hgo
      rw [headPlayers]
      exact fillPlayers_keys _ _ _ _ _ _ hfill

/-- Claim C1: for every raw frame list that canonicalizes successfully and
every configuration, the pipeline output is keyed exactly by the ordered
frame-0 player set `P`, and each player's list holds exactly one
recommendation per frame, in frame order. -/
theorem c1_output_shape (rt : ℚ → ℚ) (raw : List RawFrame) (pitch : Pitch)
    (player_team player_role : List (String × String)) (cfg : AlgoConfig)
    (frames : List Frame) (P : List String)
    (hc : canonicalize_frames raw = Except.ok (frames, P)) :
    (run_baseline_policy rt frames pitch player_team player_role cfg).map Prod.fst = P
    ∧ (∀ pr ∈ run_baseline_policy rt frames pitch player_team player_role cfg,
        pr.2.length = raw.length)
    ∧ (∀ pr ∈ run_baseline_policy rt frames pitch player_team player_role cfg,
        ∀ i, i < pr.2.length → (pr.2.getD i default).frame_idx = i) := by
  obtain ⟨hlen, hhead⟩ := canonicalize_ok_shape hc
  have hrecslen : ∀ pid,
      (recs_for rt frames pitch player_team player_role cfg pid).length
        = frames.length := by
    intro pid
    rw [recs_for, List.length_map, List.length_range]
  refine ⟨?_, ?_, ?_⟩
  · rw [run_baseline_policy, List.map_map, ← hhead]
    exact List.map_congr_left (fun pid _ => rfl) |>.trans (List.map_id _)
  · intro pr hpr
    cases pr with
    | mk pid recs =>
      obtain ⟨-, hrecs⟩ := run_baseline_mem hpr
      subst hrecs
      rw [hrecslen pid]
      exact hlen
  · intro pr hpr i hi
    cases pr with
    | mk pid recs =>
      obtain ⟨-, hrecs⟩ := run_baseline_mem hpr
      subst hrecs
      have hif : i < frames.length := by
        rw [← hrecslen pid]
        exact hi
      rw [recs_for_getD rt frames pitch player_team player_role cfg pid i hif]
      cases (smoothed_for rt frames pitch player_team player_role cfg pid).getD i [] with
      | nil => rfl
      | cons a t => rfl

def rawW1 : List RawFrame :=
  [{ id := "f0", player_pos := [("p1", (1, 2))],
     ball := { x := some 5, y := some 5, owner_id := none }, note := "" }]

def framesW1 : List Frame :=
  [{ frame_idx := 0, players := [("p1", (1, 2))], ball_pos := (5, 5),
     ball_owner_id := none, note := "" }]

/-- Claim C1 witness at a concrete one-frame raw input. -/
theorem c1_output_shape_witness :
    canonicalize_frames rawW1 = Except.ok (framesW1, ["p1"])
    ∧ ((run_baseline_policy rt0 framesW1 pitchW [] [] {}).map Prod.fst = ["p1"]
      ∧ (∀ pr ∈ run_baseline_policy rt0 framesW1 pitchW [] [] {},
          pr.2.length = rawW1.length)
      ∧ (∀ pr ∈ run_baseline_policy rt0 framesW1 pitchW [] [] {},
          ∀ i, i < pr.2.length → (pr.2.getD i default).frame_idx = i)) :=
  ⟨by decide,
   c1_output_shape rt0 rawW1 pitchW [] [] {} framesW1 ["p1"] (by decide)⟩

theorem canonGo_rel (valid : List String) :
    ∀ (raws : List RawFrame) (idx : ℕ) (lastPos : List (String × Vec2))
      (lastBall : Option (Vec2 × Option String)) (fs : List Frame),
      canonGo valid raws idx lastPos lastBall = Except.ok fs →
      ∀ pid, pid ∈ valid → ∀ i, i + 1 < raws.length →
        (getKey? pid (raws.getD (i + 1) default).player_pos = none →
          getKey? pid ((fs.getD (i + 1) default).players)
            = getKey? pid ((fs.getD i default).players))
        ∧ (∀ pos, getKey? pid (raws.getD (i + 1) default).player_pos = some pos →
          getKey? pid ((fs.getD (i + 1) default).players) = some pos) := by
  intro raws
  induction raws with
  | nil =>
    intro idx lastPos lastBall fs h pid hpid i hi
    cases hi
  | cons rf rest ih =>
    intro idx lastPos lastBall fs h pid hpid i hi
    obtain ⟨ps, last', b, fs', hfill, hball, hrec, rfl⟩ := canonGo_cons h
    cases i with
    | zero =>
      cases rest with
      | nil =>
        rw [List.length_cons, List.length_nil] at hi
        exact absurd hi (by decide)
      | cons rf1 rest' =>
        obtain ⟨ps1, last1, b1, fs1, hfill1, hball1, hrec1, rfl⟩ := canonGo_cons hrec
        obtain ⟨-, IH2, IH3⟩ :=
          fillPlayers_lookup rf1.player_pos (idx + 1) valid last' ps1 last1 hfill1
        have hchain : getKey? pid last' = getKey? pid ps :=
          fillPlayers_last_eq_ps hfill hpid
        constructor
        · intro hnone
          have := (IH3 pid hpid hnone).1
          rw [List.getD_cons_succ, List.getD_cons_zero, List.getD_cons_zero]
          rw [this, hchain]
        · intro pos hsome
          have := (IH2 pid pos hpid hsome).1
          rw [List.getD_cons_succ, List.getD_cons_zero]
          exact this
    | succ j =>
      have hj : j + 1 < rest.length := by
        rw [List.length_cons] at hi
        exact Nat.lt_of_succ_lt_succ hi
      have := ih (idx + 1) last' (some b) fs' hrec pid hpid j hj
      rw [List.getD_cons_succ, List.getD_cons_succ, List.getD_cons_succ]
      exact this

/-- Claim C6: forward-fill correctness of the canonicalizer.  For every
player of `P` and frame `i + 1`: a player absent from raw frame `i + 1`
keeps exactly its canonical frame-`i` position, and a player present in raw
frame `i + 1` gets exactly the raw position, unchanged. -/
theorem c6_forward_fill (raw : List RawFrame) (frames : List Frame)
    (P : List String) (pid : String) (i : ℕ)
    (hc : canonicalize_frames raw = Except.ok (frames, P))
    (hpid : pid ∈ P) (hi : i + 1 < raw.length) :
    (getKey? pid (raw.getD (i + 1) default).player_pos = none →
      getKey? pid ((frames.getD (i + 1) default).players)
        = getKey? pid ((frames.getD i default).players))
    ∧ (∀ pos, getKey? pid (raw.getD (i + 1) default).player_pos = some pos →
      getKey? pid ((frames.getD (i + 1) default).players) = some pos) := by
  cases raw with
  | nil =>
    rw [canonicalize_frames] at hc
    cases hc
  | cons r0 rest =>
    rw [canonicalize_frames] at hc
    split at hc
    · cases hc
    · rename_i fs hgo
      cases hc
      exact canonGo_rel _ _ _ _ _ _ hgo pid hpid i hi

def rawW6 : List RawFrame :=
  [{ id := "f0", player_pos := [("p1", (1, 2)), ("p2", (3, 4))],
     ball := { x := some 5, y := some 5, owner_id := none }, note := "" },
   { id := "f1", player_pos := [("p1", (2, 2))],
     ball := { x := none, y := none, owner_id := none }, note := "" }]

def framesW6 : List Frame :=
  [{ frame_idx := 0, players := [("p1", (1, 2)), ("p2", (3, 4))], ball_pos := (5, 5),
     ball_owner_id := none, note := "" },
   { frame_idx := 1, players := [("p1", (2, 2)), ("p2", (3, 4))], ball_pos := (5, 5),
     ball_owner_id := none, note := "" }]

/-- Claim C6 witness: player `p2` is missing from raw frame 1 and keeps its
frame-0 position; player `p1` is present and is taken unchanged. -/
theorem c6_forward_fill_witness :
    canonicalize_frames rawW6 = Except.ok (framesW6, ["p1", "p2"])
    ∧ "p2" ∈ ["p1", "p2"] ∧ 0 + 1 < rawW6.length
    ∧ ((getKey? "p2" (rawW6.getD (0 + 1) default).player_pos = none →
        getKey? "p2" ((framesW6.getD (0 + 1) default).players)
          = getKey? "p2" ((framesW6.getD 0 default).players))
      ∧ (∀ pos, getKey? "p2" (rawW6.getD (0 + 1) default).player_pos = some pos →
        getKey? "p2" ((framesW6.getD (0 + 1) default).players) = some pos)) :=
  ⟨by decide, by decide, by decide,
   c6_forward_fill rawW6 framesW6 ["p1", "p2"] "p2" 0 (by decide) (by decide) (by decide)⟩

theorem canonicalize_cons_err (r0 : RawFrame) (rest : List RawFrame)
    (hball : resolveBall r0 none 0 = Except.error (CanonErr.ballMissing 0)) :
    canonicalize_frames (r0 :: rest) = Except.error (CanonErr.ballMissing 0) := by
  obtain ⟨ps, last', hfill⟩ :=
    fillPlayers_ok r0.player_pos 0 (r0.player_pos.map Prod.fst) []
      (fun pid hmem => Or.inl (isSome_of_mem_keys hmem))
  simp only [canonicalize_frames]
  rw [canonGo, hfill]
  dsimp only
  rw [hball]

theorem canonicalize_cons_classify (r0 : RawFrame) (rest : List RawFrame) :
    ((r0.ball.x ≠ none ∧ r0.ball.y ≠ none)
      ∧ ∃ v, canonicalize_frames (r0 :: rest) = Except.ok v)
    ∨ (¬(r0.ball.x ≠ none ∧ r0.ball.y ≠ none)
      ∧ canonicalize_frames (r0 :: rest)
          = Except.error (CanonErr.ballMissing 0)) := by
  obtain ⟨ps, last', hfill⟩ :=
    fillPlayers_ok r0.player_pos 0 (r0.player_pos.map Prod.fst) []
      (fun pid hmem => Or.inl (isSome_of_mem_keys hmem))
  have hlast' : ∀ pid ∈ r0.player_pos.map Prod.fst,
      (getKey? pid last').isSome = true := by
    intro pid hmem
    obtain ⟨-, IH2, -⟩ :=
      fillPlayers_lookup r0.player_pos 0 (r0.player_pos.map Prod.fst) [] ps last' hfill
    cases hk : getKey? pid r0.player_pos with
    | some v =>
      rw [(IH2 pid v hmem hk).2]
      rfl
    | none =>
      have hs := isSome_of_mem_keys hmem
      rw [hk] at hs
      cases hs
  cases hx : r0.ball.x with
  | some bx =>
    cases hy : r0.ball.y with
    | some yb =>
      refine Or.inl ⟨⟨fun hc => Option.noConfusion hc,
        fun hc => Option.noConfusion hc⟩, ?_⟩
      have hball : resolveBall r0 none 0
          = Except.ok ((bx, yb), r0.ball.owner_id) := by
        rw [resolveBall, hx, hy]
      obtain ⟨fs, hrec⟩ :=
        canonGo_ok (r0.player_pos.map Prod.fst) rest 1 last'
          ((bx, yb), r0.ball.owner_id) hlast'
      refine ⟨(⟨0, ps, (bx, yb), r0.ball.owner_id, r0.note⟩ :: fs,
        r0.player_pos.map Prod.fst), ?_⟩
      simp only [canonicalize_frames]
      rw [canonGo, hfill]
      dsimp only
      rw [hball]
      dsimp only
      rw [hrec]
    | none =>
      refine Or.inr ⟨fun hc => hc.2 rfl, ?_⟩
      refine canonicalize_cons_err r0 rest ?_
      rw [resolveBall, hx, hy]
  | none =>
    refine Or.inr ⟨fun hc => hc.1 rfl, ?_⟩
    refine canonicalize_cons_err r0 rest ?_
    cases hy : r0.ball.y with
    | some yb =>
      rw [resolveBall, hx, hy]
    | none =>
      rw [resolveBall, hx, hy]

/-- Claim C7: fail-fast canonicalization.  The `Except` result is a single
error or the full output, never anything in between, and an error occurs
exactly when the input is bad-shaped in the claim's sense: the raw frame
list is empty, or some player of `P` has no position at a frame with no
prior frame supplying one (a condition that is in fact unsatisfiable, since
`P` is the frame-0 key set), or a frame's ball fix is missing with no
earlier frame establishing one.  Moreover the error always identifies the
offending frame: `noFrames` on the empty list, else `ballMissing 0` with
frame 0's ball fix genuinely missing. -/
theorem c7_fail_fast (raw : List RawFrame) :
    ((∃ e, canonicalize_frames raw = Except.error e)
      ↔ (raw = []
        ∨ (∃ i pid, i < raw.length
            ∧ pid ∈ raw.headI.player_pos.map Prod.fst
            ∧ getKey? pid (raw.getD i default).player_pos = none
            ∧ ∀ j < i, getKey? pid (raw.getD j default).player_pos = none)
        ∨ (∃ i, i < raw.length
            ∧ ∀ j ≤ i, ¬((raw.getD j default).ball.x ≠ none
                ∧ (raw.getD j default).ball.y ≠ none))))
    ∧ (∀ e, canonicalize_frames raw = Except.error e →
        (e = CanonErr.noFrames ∧ raw = [])
        ∨ (e = CanonErr.ballMissing 0
            ∧ ¬(raw.headI.ball.x ≠ none ∧ raw.headI.ball.y ≠ none))) := by
  cases raw with
  | nil =>
    refine ⟨⟨fun _ => Or.inl rfl, fun _ => ⟨CanonErr.noFrames, rfl⟩⟩, ?_⟩
    intro e he
    rw [canonicalize_frames] at he
    cases he
    exact Or.inl ⟨rfl, rfl⟩
  | cons r0 rest =>
    rcases canonicalize_cons_classify r0 rest with ⟨hb, v, hok⟩ | ⟨hb, herr⟩
    · refine ⟨⟨?_, ?_⟩, ?_⟩
      · rintro ⟨e, he⟩
        rw [hok] at he
        cases he
      · intro hcond
        exfalso
        rcases hcond with hnil | hplayer | hball
        · cases hnil
        · obtain ⟨i, pid, hi, hmem, hnone, hall⟩ := hplayer
          have hmem0 : pid ∈ r0.player_pos.map Prod.fst := hmem
          have hsome := isSome_of_mem_keys hmem0
          cases i with
          | zero =>
            rw [List.getD_cons_zero] at hnone
            rw [hnone] at hsome
            cases hsome
          | succ n =>
            have h0 := hall 0 (Nat.succ_pos n)
            rw [List.getD_cons_zero] at h0
            rw [h0] at hsome
            cases hsome
        · obtain ⟨i, hi, hall⟩ := hball
          have h0 := hall 0 (Nat.zero_le i)
          rw [List.getD_cons_zero] at h0
          exact h0 hb
      · intro e he
        rw [hok] at he
        cases he
    · refine ⟨⟨?_, ?_⟩, ?_⟩
      · intro _
        refine Or.inr (Or.inr ⟨0, Nat.succ_pos _, ?_⟩)
        intro j hj
        have hj0 : j = 0 := Nat.le_zero.mp hj
        subst hj0
        rw [List.getD_cons_zero]
        exact hb
      · intro _
        exact ⟨CanonErr.ballMissing 0, herr⟩
      · intro e he
        rw [herr] at he
        cases he
        exact Or.inr ⟨rfl, hb⟩
